import Mathlib

/-!
Verification development for the college-website discovery and scraping
backend (`backend/app/services/search.py`, `backend/app/services/dynamic_scraper.py`,
`backend/app/routers/chat.py`).

Strings are modelled as `List Char` (`Str`), so that Python string
operations (strip, lower, splitlines, slicing) become ordinary list
functions.  Network and browser effects (search-provider HTTP calls,
Playwright page rendering) are modelled as explicit oracle parameters:
each function that performs such an effect in the source takes the
effect's results as an argument, and everything downstream of the
effects is translated directly from the source code.
-/

namespace AiBot

/-- Python strings, modelled as lists of unicode code points. -/
abbrev Str := List Char

/-- `str.lower` on a single character (ASCII range, as used by the data here). -/
def pyLowerChar (c : Char) : Char :=
  if 65 ≤ c.toNat ∧ c.toNat ≤ 90 then Char.ofNat (c.toNat + 32) else c

/-- `str.lower`. -/
def pyLower (s : Str) : Str := s.map pyLowerChar

/-- Whitespace characters stripped by `str.strip` / matched by regex `\s`
(space, tab, newline, carriage return, vertical tab, form feed). -/
def isPySpace (c : Char) : Bool :=
  c = ' ' ∨ c = '\t' ∨ c = '\n' ∨ c = '\r' ∨ c = '\x0b' ∨ c = '\x0c'

/-- `str.strip()`: drop leading and trailing whitespace. -/
def pyStrip (s : Str) : Str :=
  List.rdropWhile isPySpace (List.dropWhile isPySpace s)

/-- ASCII digit test (regex `\d`). -/
def isReDigit (c : Char) : Bool := 48 ≤ c.toNat ∧ c.toNat ≤ 57

/-- ASCII letter test. -/
def isAsciiAlpha (c : Char) : Bool :=
  (65 ≤ c.toNat ∧ c.toNat ≤ 90) ∨ (97 ≤ c.toNat ∧ c.toNat ≤ 122)

/-- Word characters for regex `\w` (ASCII range). -/
def isWordChar (c : Char) : Bool :=
  isAsciiAlpha c ∨ isReDigit c ∨ c = '_'

/-- Substring test: Python `needle in hay`. -/
def isSubstr (needle hay : Str) : Bool :=
  decide (needle <:+: hay)

/-- Line terminator characters handled by this model of
`str.splitlines()`. -/
def isLineBreak (c : Char) : Bool := c = '\n' ∨ c = '\r'

/-- Helper for `pySplitlines`: accumulates the current line (reversed);
a `\r\n` pair counts as a single terminator. -/
def splitlinesGo (acc : Str) : Str → List Str
  | [] => [acc.reverse]
  | c :: rest =>
      if isLineBreak c then
        let rest' := if c = '\r' ∧ rest.head? = some '\n' then rest.tail else rest
        acc.reverse :: (if rest' = [] then [] else splitlinesGo [] rest')
      else splitlinesGo (c :: acc) rest
termination_by s => s.length
decreasing_by
  all_goals simp only [List.length_cons]
  · split
    · cases rest with
      | nil => simp
      | cons x xs =>
          simp only [List.tail_cons, List.length_cons]
          omega
    · omega
  · omega

/-- `str.splitlines()` (covering the `\n`, `\r`, `\r\n` terminators). -/
def pySplitlines (s : Str) : List Str :=
  if s = [] then [] else splitlinesGo [] s

/-- `"\n".join(lines)`. -/
def joinLines : List Str → Str
  | [] => []
  | [l] => l
  | l :: ls => l ++ '\n' :: joinLines ls

/-- Helper splitting a string into maximal runs of characters satisfying
`keep`; `cur` is the current run, reversed. -/
def tokenizeGo (keep : Char → Bool) (cur : Str) : Str → List Str
  | [] => if cur = [] then [] else [cur.reverse]
  | c :: rest =>
      if keep c then tokenizeGo keep (c :: cur) rest
      else if cur = [] then tokenizeGo keep [] rest
      else cur.reverse :: tokenizeGo keep [] rest

/-- `re.findall(r"\w+", s)`. -/
def pyFindWords (s : Str) : List Str := tokenizeGo isWordChar [] s

/-- `str.split()` with no arguments: split on whitespace runs. -/
def pySplitWs (s : Str) : List Str := tokenizeGo (fun c => ¬ isPySpace c) [] s

/-- Stable insertion of `x` into `l`, placing `x` before the first element
`y` with `le x y` (so equal-key elements keep their original order). -/
def pyInsert (le : α → α → Bool) (x : α) : List α → List α
  | [] => [x]
  | y :: ys => if le x y then x :: y :: ys else y :: pyInsert le x ys

/-- Stable sort with respect to the boolean relation `le`; with
`le a b = (key a ≤ key b)` this is Python's `sorted(l, key=key)`, and with
`le a b = (key b ≤ key a)` it is `sorted(l, key=key, reverse=True)`. -/
def pySorted (le : α → α → Bool) : List α → List α
  | [] => []
  | x :: xs => pyInsert le x (pySorted le xs)

/-- Lexicographic `≤` on Python strings (by code point). -/
def strLe : Str → Str → Bool
  | [], _ => true
  | _ :: _, [] => false
  | a :: as, b :: bs =>
      if a.toNat < b.toNat then true
      else if b.toNat < a.toNat then false
      else strLe as bs

/-- First-match association-list lookup, modelling a Python `dict`
(whose keys are unique). -/
def assocFind (l : List (Str × α)) (k : Str) : Option α :=
  (l.find? (fun p => p.1 = k)).map (·.2)

/-- Characters allowed in a URL scheme by `urllib.parse.urlsplit`. -/
def isSchemeChar (c : Char) : Bool :=
  isAsciiAlpha c ∨ isReDigit c ∨ c = '+' ∨ c = '-' ∨ c = '.'

/-- The scheme-splitting step of `urllib.parse.urlsplit`: if the text
before the first `:` is a nonempty run of scheme characters, it is the
scheme and the remainder follows the colon. -/
def splitScheme (u : Str) : Option (Str × Str) :=
  let pre := u.takeWhile (fun c => c ≠ ':')
  if pre.length = u.length then none
  else if pre ≠ [] ∧ pre.all isSchemeChar then some (pre, u.drop (pre.length + 1))
  else none

/-- Characters that terminate the netloc in `urlsplit`. -/
def isNetlocEnd (c : Char) : Bool := c = '/' ∨ c = '?' ∨ c = '#'

/-- `urllib.parse.urlparse`, restricted to the two components the source
uses: `(scheme, netloc)`.  The scheme is lowercased, the netloc is the
text after `//` up to the first `/`, `?` or `#`. -/
def pyUrlparse (u : Str) : Str × Str :=
  match splitScheme u with
  | some (sch, rest) =>
      if ('/' :: '/' :: []) <+: rest then
        (pyLower sch, (rest.drop 2).takeWhile (fun c => ¬ isNetlocEnd c))
      else (pyLower sch, [])
  | none =>
      if ('/' :: '/' :: []) <+: u then
        ([], (u.drop 2).takeWhile (fun c => ¬ isNetlocEnd c))
      else ([], [])

/-- The hostname (netloc) of a URL. -/
def hostnameOf (u : Str) : Str := (pyUrlparse u).2

/-- `f"{parsed.scheme}://{parsed.netloc}"`: the site-root URL each search
provider stores in place of the full result URL. -/
def rootUrl (u : Str) : Str :=
  (pyUrlparse u).1 ++ (':' :: '/' :: '/' :: []) ++ (pyUrlparse u).2

/-! ## `backend/app/services/search.py` -/

/-- Entry of the curated catalog `KNOWN_COLLEGES` (loaded from
`colleges.json`, which is not part of the sources; the catalog is
therefore a parameter below): the stored display name and official URL. -/
structure CollegeInfo where
  name : Str
  url : Str
deriving DecidableEq, Repr

/-- Entry of the UGC registry `ALL_INSTITUTIONS` (loaded from
`all_institutions.json`; a parameter below). -/
structure InstInfo where
  name : Str
  university : Str
  state : Str
  district : Str
  collegeType : Str
deriving DecidableEq, Repr

/-- The curated catalog: key (normalized lowercase name) to info, in
dictionary iteration order. -/
abbrev Catalog := List (Str × CollegeInfo)

/-- The UGC registry: key to info, in dictionary iteration order. -/
abbrev Registry := List (Str × InstInfo)

/-- A candidate dictionary built by `search_known_colleges` /
`search_college_website`.  The Python dicts are heterogeneous; fields a
given code path does not set are `[]` (for `details`) or `0` (for
`score`) here. -/
structure Candidate where
  name : Str
  url : Str
  confidence : Str
  source : Str
  details : Str
  score : Nat
deriving DecidableEq, Repr

/-- `EXCLUDED_DOMAINS` (search.py lines 94-102). -/
def EXCLUDED_DOMAINS : List Str :=
  [("collegedunia.com").toList, ("shiksha.com").toList, ("careers360.com").toList,
   ("getmyuni.com").toList, ("collegedekho.com").toList, ("justdial.com").toList,
   ("wikipedia.org").toList, ("youtube.com").toList, ("facebook.com").toList,
   ("twitter.com").toList, ("linkedin.com").toList, ("instagram.com").toList,
   ("quora.com").toList, ("reddit.com").toList, ("glassdoor.com").toList,
   ("naukri.com").toList, ("indeed.com").toList, ("studyabroad").toList,
   ("embibe.com").toList, ("byjus.com").toList, ("vedantu.com").toList,
   ("toppr.com").toList, ("leverage.edu").toList, ("admitkard.com").toList,
   ("collegesearch.in").toList, ("indiaeducation.net").toList,
   ("google.com").toList, ("bing.com").toList, ("duckduckgo.com").toList]

/-- `PREFERRED_PATTERNS`: each regex `r"\.xyz$"` is a suffix test. -/
def PREFERRED_PATTERNS : List Str :=
  [(".ac.in").toList, (".edu.in").toList, (".edu").toList,
   (".org.in").toList, (".res.in").toList]

/-- `is_excluded_domain(domain)`: some excluded entry occurs in the
lowercased domain. -/
def is_excluded_domain (domain : Str) : Bool :=
  EXCLUDED_DOMAINS.any (fun excluded => isSubstr excluded (pyLower domain))

/-- Stopwords removed from the college name in `get_domain_confidence`. -/
def confidenceStopwords : List Str :=
  [("of").toList, ("the").toList, ("and").toList, ("for").toList,
   ("institute").toList, ("university").toList, ("college").toList]

/-- `get_domain_confidence(url, college_name)` (search.py lines 114-133). -/
def get_domain_confidence (url college_name : Str) : Str :=
  let domain := pyLower (pyUrlparse url).2
  if PREFERRED_PATTERNS.any (fun pat => pat <:+ domain) then ("high").toList
  else
    let name_words := pySplitWs (pyLower college_name)
    let significant_words := name_words.filter
      (fun w => 3 < w.length ∧ ¬ (w ∈ confidenceStopwords))
    let matchCount := (significant_words.filter (fun w => isSubstr w domain)).length
    if 2 ≤ matchCount then ("high").toList
    else if 1 ≤ matchCount then ("medium").toList
    else ("low").toList

/-- Normalization applied to the queried name: `college_name.lower().strip()`. -/
def normName (college_name : Str) : Str := pyStrip (pyLower college_name)

/-- The significant query tokens (search.py lines 165-166):
`set(re.findall(r"\w+", name_lower))` restricted to words longer than 3.
Modelled as a duplicate-free list. -/
def queryWords (name_lower : Str) : List Str :=
  ((pyFindWords name_lower).eraseDups).filter (fun w => 3 < w.length)

/-- `len(query_words.intersection(key_words))` for a registry/catalog key. -/
def commonCount (query_words : List Str) (key : Str) : Nat :=
  (query_words.filter (fun w => w ∈ pyFindWords key)).length

/-- The `details` string `f"{district}, {state}"`. -/
def mkDetails (info : InstInfo) : Str :=
  info.district ++ (',' :: ' ' :: []) ++ info.state

/-- Step 3 of `search_known_colleges` (lines 168-187): fuzzy scan of the
curated catalog. -/
def knownFuzzyMatches (known : Catalog) (query_words : List Str)
    (name_lower : Str) : List Candidate :=
  known.flatMap (fun kv =>
    let key := kv.1
    let info := kv.2
    if isSubstr name_lower key ∨ isSubstr key name_lower then
      [⟨info.name, info.url, ("high").toList, ("database").toList, [], 0⟩]
    else if 2 ≤ commonCount query_words key then
      [⟨info.name, info.url, ("medium").toList, ("database").toList, [], 0⟩]
    else [])

/-- The score computed for one registry entry by step 4 of
`search_known_colleges` (lines 201-216): 90 for a prefix match, 80 for a
substring match, otherwise 60 plus the shared-token count when at least
2 significant tokens are shared — but the token check only runs while
fewer than 10 entries scoring at least 80 have been seen. -/
def registryScore (query_words : List Str) (name_lower key : Str)
    (current_matches : Nat) : Nat :=
  if name_lower <+: key then 90
  else if isSubstr name_lower key then 80
  else if current_matches < 10 then
    let common := commonCount query_words key
    if 2 ≤ common then 60 + common else 0
  else 0

/-- Step 4 of `search_known_colleges` (lines 200-228): scored scan of the
UGC registry, threading `current_matches` and the accumulator. -/
def ugcScan (query_words : List Str) (name_lower : Str) :
    Registry → Nat → List Candidate → List Candidate
  | [], _, acc => acc
  | (key, info) :: rest, current_matches, acc =>
      let score := registryScore query_words name_lower key current_matches
      if 0 < score then
        ugcScan query_words name_lower rest
          (if 80 ≤ score then current_matches + 1 else current_matches)
          (acc ++ [⟨info.name, [], ("medium").toList, ("ugc_database").toList,
                   mkDetails info, score⟩])
      else ugcScan query_words name_lower rest current_matches acc

/-- `search_known_colleges(college_name)` (search.py lines 136-235),
parameterized by the two reference datasets. -/
def search_known_colleges (known : Catalog) (insts : Registry)
    (college_name : Str) : List Candidate :=
  let name_lower := normName college_name
  match assocFind known name_lower with
  | some info =>
      [⟨info.name, info.url, ("high").toList, ("database").toList, [], 0⟩]
  | none =>
  match assocFind insts name_lower with
  | some info =>
      [⟨info.name, [], ("high").toList, ("ugc_database").toList, mkDetails info, 0⟩]
  | none =>
      let query_words := queryWords name_lower
      let fuzzy := knownFuzzyMatches known query_words name_lower
      if fuzzy ≠ [] then
        (pySorted (fun a b => strLe b.confidence a.confidence) fuzzy).take 5
      else
        let ugc_matches := ugcScan query_words name_lower insts 0 []
        if ugc_matches ≠ [] then
          (pySorted (fun a b => Nat.ble b.score a.score) ugc_matches).take 5
        else []

/-! ### Search providers

Each provider issues HTTP requests and parses the responses; the parsed
raw hits (`href`/`title` pairs, in page order) are oracle parameters
here, and everything the provider does after parsing is translated from
the source. -/

/-- A raw hit parsed out of a provider's response page. -/
structure RawItem where
  href : Str
  title : Str
deriving DecidableEq, Repr

/-- A provider result (`{"href": ..., "title": ...}`). -/
structure SearchResult where
  href : Str
  title : Str
deriving DecidableEq, Repr

/-- The result-processing loop shared by SearXNG / Startpage /
DuckDuckGo Lite (search.py lines 280-293, 322-339, 362-377): skip items
with a missing link (`none`), keep `http`-prefixed non-excluded hrefs
reduced to `scheme://netloc`, and stop once `max_results` results have
been collected.  The length check runs after every item, matching the
`break` placement in the source. -/
def processItems (max_results : Nat) : List (Option RawItem) → List SearchResult →
    List SearchResult
  | [], acc => acc
  | none :: rest, acc =>
      if max_results ≤ acc.length then acc else processItems max_results rest acc
  | some item :: rest, acc =>
      let acc' :=
        if item.href ≠ [] ∧ ("http").toList <+: item.href ∧
            ¬ is_excluded_domain (pyUrlparse item.href).2 then
          acc ++ [⟨rootUrl item.href, item.title⟩]
        else acc
      if max_results ≤ acc'.length then acc' else processItems max_results rest acc'

/-- `search_with_searxng(query, max_results)` (lines 255-303): try each
instance in order; `none` models a request/JSON error, `some items` a
parsed response.  The first instance whose processed results are
nonempty wins. -/
def search_with_searxng (instances : List (Option (List RawItem))) (max_results : Nat) :
    List SearchResult :=
  match instances with
  | [] => []
  | none :: rest => search_with_searxng rest max_results
  | some items :: rest =>
      let results := processItems max_results (items.map some) []
      if results ≠ [] then results else search_with_searxng rest max_results

/-- `search_with_startpage(query, max_results)` (lines 306-346): one
request; `none` models an exception (which returns `[]`), an inner
`none` a result block without link or title. -/
def search_with_startpage (response : Option (List (Option RawItem))) (max_results : Nat) :
    List SearchResult :=
  match response with
  | none => []
  | some items => processItems max_results items []

/-- `search_with_duckduckgo_lite(query, max_results)` (lines 349-384):
same shape as Startpage (rows without a `result-link` are `none`). -/
def search_with_duckduckgo_lite (response : Option (List (Option RawItem))) (max_results : Nat) :
    List SearchResult :=
  match response with
  | none => []
  | some rows => processItems max_results rows []

/-- Strip Google's `/url?q=...&...` wrapper (lines 421-423). -/
def stripGoogleWrap (href : Str) : Str :=
  if ("/url?q=").toList <+: href then
    (href.drop 7).takeWhile (fun c => c ≠ '&')
  else href

/-- `str.replace("www.", "")`: remove every (left-to-right,
non-overlapping) occurrence of `www.`. -/
def removeWWW : Str → Str
  | [] => []
  | c :: rest =>
      if ('w' :: 'w' :: 'w' :: '.' :: []) <+: c :: rest then
        removeWWW (rest.drop 3)
      else c :: removeWWW rest
termination_by s => s.length
decreasing_by
  all_goals simp only [List.length_cons, List.length_drop]
  all_goals omega

/-- The anchor-scanning loop of `search_with_playwright_google`
(lines 417-444): unwrap Google redirects, keep `http` links whose
`www.`-stripped domain is not excluded, not yet seen, and contains
`.edu`, `.ac.in` or `college`; record `scheme://netloc`. -/
def playwrightScan (max_results : Nat) :
    List RawItem → List Str → List SearchResult → List SearchResult
  | [], _, acc => acc
  | a :: rest, seen, acc =>
      let href := stripGoogleWrap a.href
      if ("http").toList <+: href then
        let parsed := pyUrlparse href
        let domain := removeWWW parsed.2
        if is_excluded_domain domain ∨ domain ∈ seen then
          playwrightScan max_results rest seen acc
        else if isSubstr (".edu").toList domain ∨ isSubstr (".ac.in").toList domain ∨
            isSubstr ("college").toList domain then
          let acc' := acc ++ [⟨rootUrl href,
                              if a.title = [] then domain else a.title⟩]
          if max_results ≤ acc'.length then acc'
          else playwrightScan max_results rest (seen ++ [domain]) acc'
        else playwrightScan max_results rest seen acc
      else playwrightScan max_results rest seen acc

/-- `search_with_playwright_google(query, max_results)` (lines 387-476):
`none` models a browser failure (returns `[]`), `some anchors` the
`<a href=...>` elements of the rendered result page. -/
def search_with_playwright_google (page : Option (List RawItem)) (max_results : Nat) :
    List SearchResult :=
  match page with
  | none => []
  | some anchors => playwrightScan max_results anchors [] []

/-- All provider oracles consumed by one `search_college_website` call. -/
structure ProviderData where
  searxng : List (Option (List RawItem))
  startpage : Option (List (Option RawItem))
  ddg : Option (List (Option RawItem))
  playwright : Option (List RawItem)

/-- Steps 2-5 of `search_college_website` (lines 517-536): first
non-empty provider response wins. -/
def chainResults (pd : ProviderData) (max_results : Nat) : List SearchResult :=
  let r1 := search_with_searxng pd.searxng (max_results * 2)
  if r1 ≠ [] then r1 else
  let r2 := search_with_startpage pd.startpage (max_results * 2)
  if r2 ≠ [] then r2 else
  let r3 := search_with_duckduckgo_lite pd.ddg (max_results * 2)
  if r3 ≠ [] then r3 else
  search_with_playwright_google pd.playwright max_results

/-- `".".join(domain.split(".")[-2:]) if "." in domain else domain`. -/
def baseDomain (domain : Str) : Str :=
  if '.' ∈ domain then
    let parts := domain.splitOn '.'
    List.intercalate ('.' :: []) (parts.drop (parts.length - 2))
  else domain

/-- The dedup-and-score loop of `search_college_website`
(lines 542-575). -/
def webCandidateLoop (college_name : Str) (max_results : Nat) :
    List SearchResult → List Str → List Candidate → List Candidate
  | [], _, candidates => candidates
  | r :: rest, seen_domains, candidates =>
      if r.href = [] then webCandidateLoop college_name max_results rest seen_domains candidates
      else
        let domain := pyLower (pyUrlparse r.href).2
        if domain = [] then
          webCandidateLoop college_name max_results rest seen_domains candidates
        else
          let base := baseDomain domain
          if base ∈ seen_domains then
            webCandidateLoop college_name max_results rest seen_domains candidates
          else
            let conf := get_domain_confidence r.href college_name
            let cand : Candidate :=
              ⟨(if r.title ≠ [] then r.title
                else college_name ++ (' ' :: '-' :: ' ' :: []) ++ domain),
               r.href, conf, [], [], 0⟩
            let candidates' := candidates ++ [cand]
            if max_results ≤ candidates'.length then candidates'
            else webCandidateLoop college_name max_results rest (seen_domains ++ [base]) candidates'

/-- `confidence_order.get(conf, 3)` (line 578). -/
def confidenceRank (conf : Str) : Nat :=
  if conf = ("high").toList then 0
  else if conf = ("medium").toList then 1
  else if conf = ("low").toList then 2
  else 3

/-- Web-search post-processing of `search_college_website`
(lines 542-582): dedup/score, sort by confidence rank (high first), cap. -/
def webCandidates (results : List SearchResult) (college_name : Str)
    (max_results : Nat) : List Candidate :=
  let candidates := webCandidateLoop college_name max_results results [] []
  (pySorted (fun a b => Nat.ble (confidenceRank a.confidence)
    (confidenceRank b.confidence)) candidates).take max_results

/-- `search_college_website(college_name, max_results, force_web_search)`
(search.py lines 479-582): the exposed `resolve` operation, parameterized
by the two reference datasets and the provider oracles. -/
def search_college_website (known : Catalog) (insts : Registry) (pd : ProviderData)
    (college_name : Str) (max_results : Nat) (force_web_search : Bool) :
    List Candidate :=
  let step1 : Option (List Candidate) :=
    if force_web_search then none
    else
      let known_results := search_known_colleges known insts college_name
      if known_results.any (fun r => r.url ≠ []) then
        some ((known_results.filter (fun r => r.url ≠ [])).take max_results)
      else none
  match step1 with
  | some out => out
  | none =>
      let college_name' :=
        if force_web_search then college_name
        else
          let known_results := search_known_colleges known insts college_name
          match known_results with
          | best :: _ =>
              if best.source = ("ugc_database").toList then
                best.name ++ (' ' :: []) ++ best.details
              else college_name
          | [] => college_name
      let results := chainResults pd max_results
      if results = [] then []
      else webCandidates results college_name' max_results

/-! ## `backend/app/routers/chat.py` -/

/-- Does some suffix of `s` satisfy `f`?  Modelling `re.search`: a match
may start at any position (including the end of the string). -/
def scanSuffixes (f : Str → Bool) : Str → Bool
  | [] => f []
  | c :: rest => f (c :: rest) ∨ scanSuffixes f rest

/-- Match of `(lpa|lakhs?|crore?|cr|lakh|%)` at the start of `s`. -/
def placementUnitAt (s : Str) : Bool :=
  ("lpa").toList <+: s ∨ ("lakhs").toList <+: s ∨ ("lakh").toList <+: s ∨
  ("crore").toList <+: s ∨ ("cror").toList <+: s ∨ ("cr").toList <+: s ∨
  ('%' :: []) <+: s

/-- Continuation of the placements regex after the leading digits and the
optional dot: `\d*\s*(lpa|lakhs?|crore?|cr|lakh|%)`. -/
def placementTail (s : Str) : Bool :=
  placementUnitAt ((s.dropWhile isReDigit).dropWhile isPySpace)

/-- Match of `\d+\.?\d*\s*(lpa|lakhs?|crore?|cr|lakh|%)` at the start of
`s` (re.search tries both choices of the optional `.`). -/
def placementMatchAt (s : Str) : Bool :=
  let ds := s.takeWhile isReDigit
  if ds = [] then false
  else
    match s.drop ds.length with
    | '.' :: r1 => placementTail r1 ∨ placementTail ('.' :: r1)
    | r1 => placementTail r1

/-- Match of `(per|/)\s*(year|annum|semester)` at the start of `s`. -/
def perPeriodAt (s : Str) : Bool :=
  let afterSep : Option Str :=
    if ("per").toList <+: s then some (s.drop 3)
    else if ('/' :: []) <+: s then some (s.drop 1)
    else none
  match afterSep with
  | none => false
  | some r =>
      let r' := r.dropWhile isPySpace
      ("year").toList <+: r' ∨ ("annum").toList <+: r' ∨ ("semester").toList <+: r'

/-- Continuation of the fee-amount alternative after the optional comma:
`\d*\s*(per|/)\s*(year|annum|semester)`. -/
def feeAmountTail (s : Str) : Bool :=
  perPeriodAt ((s.dropWhile isReDigit).dropWhile isPySpace)

/-- Match of the second fees alternative
`(\d+,?\d*)\s*(per|/)\s*(year|annum|semester)` at the start of `s`. -/
def feeAmountMatchAt (s : Str) : Bool :=
  let ds := s.takeWhile isReDigit
  if ds = [] then false
  else
    match s.drop ds.length with
    | ',' :: r1 => feeAmountTail r1 ∨ feeAmountTail (',' :: r1)
    | r1 => feeAmountTail r1

/-- The literal bytes of the corrupted rupee sign in the source regex:
`₹` (U+20B9) saved as UTF-8 and re-read as Latin-1 gives the three
characters `â` `‚` `¹`. -/
def mojibakeRupee : Str := 'â' :: '‚' :: '¹' :: []

/-- Match of the first fees alternative `(â‚¹|rs\.?|inr)\s*\d+` at the
start of `s`. -/
def feeCurrencyMatchAt (s : Str) : Bool :=
  let afterMarker : List Str :=
    (if mojibakeRupee <+: s then [s.drop 3] else []) ++
    (if ("rs.").toList <+: s then [s.drop 3] else []) ++
    (if ("rs").toList <+: s then [s.drop 2] else []) ++
    (if ("inr").toList <+: s then [s.drop 3] else [])
  afterMarker.any (fun r => (r.dropWhile isPySpace).takeWhile isReDigit ≠ [])

/-- Match of the full fees regex
`(â‚¹|rs\.?|inr)\s*\d+|(\d+,?\d*)\s*(per|/)\s*(year|annum|semester)`
at the start of `s`. -/
def feesMatchAt (s : Str) : Bool :=
  feeCurrencyMatchAt s ∨ feeAmountMatchAt s

/-- `has_specific_data(content, intent)` (chat.py lines 24-36): the
exposed `isAdequate` predicate. -/
def has_specific_data (content intent : Str) : Bool :=
  if intent = ("placements").toList then
    scanSuffixes placementMatchAt (pyLower content)
  else if intent = ("fees").toList then
    scanSuffixes feesMatchAt (pyLower content)
  else true

/-! ## `backend/app/services/dynamic_scraper.py` -/

/-- `CONTENT_LIMIT` (dynamic_scraper.py line 17). -/
def CONTENT_LIMIT : Nat := 12000

/-- Parsed HTML, as BeautifulSoup sees it: a tree of elements (with tag
names) and text nodes. -/
inductive Html where
  | textNode : Str → Html
  | elem : Str → List Html → Html

/-- Tags removed by `extract_text_content` via `decompose()`
(line 68). -/
def killTags : List Str :=
  [("script").toList, ("style").toList, ("nav").toList, ("footer").toList,
   ("header").toList, ("aside").toList, ("noscript").toList,
   ("iframe").toList, ("form").toList]

mutual

/-- The stripped nonempty text nodes of the tree in document order,
skipping removed subtrees: the strings joined by
`soup.get_text(separator="\n", strip=True)`. -/
def strippedStrings : Html → List Str
  | .textNode s => if pyStrip s = [] then [] else [pyStrip s]
  | .elem tag children => if tag ∈ killTags then [] else strippedStringsList children

/-- `strippedStrings` over a list of children. -/
def strippedStringsList : List Html → List Str
  | [] => []
  | h :: hs => strippedStrings h ++ strippedStringsList hs

end

/-- `soup.get_text(separator="\n", strip=True)` after the `decompose`
calls. -/
def getText (h : Html) : Str :=
  joinLines (strippedStrings h)

/-- The line filter of `extract_text_content` (line 72): strip each line
and keep those longer than 3 characters. -/
def filterLines (text : Str) : List Str :=
  (pySplitlines text).filterMap
    (fun line => if 3 < (pyStrip line).length then some (pyStrip line) else none)

/-- Helper for `collapseNewlines`: `k` pending newlines; a maximal run of
`k` newlines is emitted as `min k 2` newlines (`re.sub(r"\n{3,}", "\n\n", ...)`
replaces runs of three or more by two and leaves shorter runs alone). -/
def collapseGo (k : Nat) : Str → Str
  | [] => List.replicate (min k 2) '\n'
  | c :: rest =>
      if c = '\n' then collapseGo (k + 1) rest
      else List.replicate (min k 2) '\n' ++ c :: collapseGo 0 rest

/-- `re.sub(r"\n{3,}", "\n\n", text)` (line 74). -/
def collapseNewlines (text : Str) : Str := collapseGo 0 text

/-- `extract_text_content(html)` (dynamic_scraper.py lines 64-79):
the Content Extractor. -/
def extract_text_content (h : Html) : Str :=
  let text := getText h
  let text2 := joinLines (filterLines text)
  let text3 := collapseNewlines text2
  if CONTENT_LIMIT < text3.length then
    text3.take CONTENT_LIMIT ++ ('.' :: '.' :: '.' :: [])
  else text3

/-- `INTENT_URL_PATTERNS` (lines 46-52). -/
def INTENT_URL_PATTERNS : List (Str × List Str) :=
  [(("placements").toList,
    [("placement").toList, ("career").toList, ("ocs").toList, ("tpo").toList,
     ("recruit").toList, ("training").toList]),
   (("fees").toList,
    [("fee").toList, ("tuition").toList, ("payment").toList, ("scholarship").toList]),
   (("admissions").toList,
    [("admission").toList, ("apply").toList, ("eligibility").toList, ("intake").toList]),
   (("about").toList,
    [("about").toList, ("overview").toList, ("history").toList]),
   (("facilities").toList,
    [("hostel").toList, ("accommodation").toList, ("campus").toList,
     ("infrastructure").toList, ("facility").toList, ("amenity").toList,
     ("library").toList, ("mess").toList])]

/-- `INTENT_TO_PATHS` (lines 55-61). -/
def INTENT_TO_PATHS : List (Str × List Str) :=
  [(("placements").toList,
    [("/placements").toList, ("/placement").toList, ("/careers").toList,
     ("/ocs").toList, ("/tpo").toList]),
   (("fees").toList,
    [("/fees").toList, ("/fee-structure").toList, ("/tuition").toList]),
   (("admissions").toList,
    [("/admissions").toList, ("/admission").toList, ("/apply").toList]),
   (("about").toList,
    [("/about").toList, ("/about-us").toList, ("/overview").toList]),
   (("facilities").toList,
    [("/hostels").toList, ("/facilities").toList, ("/infrastructure").toList,
     ("/campus").toList, ("/amenities").toList, ("/campus-life").toList])]

/-- Dictionary `get` with a default, for the two intent tables. -/
def intentLookup (table : List (Str × List Str)) (intent : Str) : List Str :=
  match assocFind table intent with
  | some v => v
  | none => []

/-- `urljoin(base_url, path)` for the root-relative paths of
`INTENT_TO_PATHS`: scheme and netloc of the base, then the path. -/
def pyUrljoin (base path : Str) : Str :=
  (pyUrlparse base).1 ++ (':' :: '/' :: '/' :: []) ++ (pyUrlparse base).2 ++ path

/-- A scraped page record (`page_type` / `content_text` /
`source_url`). -/
structure PageRecord where
  page_type : Str
  content_text : Str
  source_url : Str
deriving DecidableEq, Repr

/-- Step 1 of `scrape_for_intent` (lines 262-272): try each discovered
portal URL whose lowercased text contains one of the intent's keyword
patterns; the first one whose scrape yields more than 300 characters
wins.  `swd url` is the outcome of `scrape_with_discovery(url, intent)`
(a render-and-extract effect; `none` models failure or too-little
content). -/
def portalLoop (swd : Str → Option Str) (patterns : List Str) (intent : Str) :
    List Str → Option PageRecord
  | [] => none
  | portal_url :: rest =>
      if patterns.any (fun p => isSubstr p (pyLower portal_url)) then
        match swd portal_url with
        | some content =>
            if content ≠ [] ∧ 300 < content.length then
              some ⟨intent, content, portal_url⟩
            else portalLoop swd patterns intent rest
        | none => portalLoop swd patterns intent rest
      else portalLoop swd patterns intent rest

/-- Step 2 of `scrape_for_intent` (lines 282-293): probe the standard
paths for the intent. -/
def pathLoop (swd : Str → Option Str) (base_url intent : Str) :
    List Str → Option PageRecord
  | [] => none
  | path :: rest =>
      let url := pyUrljoin base_url path
      match swd url with
      | some content =>
          if content ≠ [] ∧ 300 < content.length then
            some ⟨intent, content, url⟩
          else pathLoop swd base_url intent rest
      | none => pathLoop swd base_url intent rest

/-- `scrape_for_intent(base_url, intent)` (dynamic_scraper.py lines
231-306): the `fetchTopicContent` state machine.  `homepage` is the
outcome of rendering the homepage and running `discover_portal_urls` on
it (`none` models a render failure, which skips step 1); `swd` is the
`scrape_with_discovery` effect. -/
def scrape_for_intent (swd : Str → Option Str) (homepage : Option (List Str))
    (base_url intent : Str) : Option PageRecord :=
  let patterns := intentLookup INTENT_URL_PATTERNS intent
  let step1 :=
    match homepage with
    | none => none
    | some discovered_urls => portalLoop swd patterns intent discovered_urls
  match step1 with
  | some r => some r
  | none =>
  match pathLoop swd base_url intent (intentLookup INTENT_TO_PATHS intent) with
  | some r => some r
  | none =>
  match swd base_url with
  | some content =>
      if content ≠ [] ∧ 200 < content.length then
        some ⟨("general").toList, content, base_url⟩
      else none
  | none => none

/-- The aggregator URL templates `AGGREGATOR_SITES` (lines 21-42); only
the keys are consulted by `scrape_from_aggregators`. -/
def AGGREGATOR_SITES : List (Str × List Str) :=
  [(("placements").toList,
    [("https://www.shiksha.com/college/{college_slug}-placements").toList,
     ("https://collegedunia.com/college/{college_slug}/placements").toList,
     ("https://www.careers360.com/colleges/{college_slug}/placements").toList]),
   (("fees").toList,
    [("https://www.shiksha.com/college/{college_slug}-fees").toList,
     ("https://collegedunia.com/college/{college_slug}/fee-structure").toList,
     ("https://www.careers360.com/colleges/{college_slug}/fees").toList]),
   (("admissions").toList,
    [("https://www.shiksha.com/college/{college_slug}-admissions").toList,
     ("https://collegedunia.com/college/{college_slug}/admission").toList,
     ("https://www.careers360.com/colleges/{college_slug}/admission").toList]),
   (("facilities").toList,
    [("https://www.shiksha.com/college/{college_slug}-infrastructure").toList,
     ("https://collegedunia.com/college/{college_slug}/hostel").toList,
     ("https://www.careers360.com/colleges/{college_slug}/facilities").toList])]

/-- The three site-restricted queries of `scrape_from_aggregators`
(lines 358-362). -/
def aggregatorQueries (college_name intent : Str) : List Str :=
  [("site:shiksha.com ").toList ++ college_name ++ (' ' :: []) ++ intent,
   ("site:collegedunia.com ").toList ++ college_name ++ (' ' :: []) ++ intent,
   ("site:careers360.com ").toList ++ college_name ++ (' ' :: []) ++ intent]

/-- The aggregator-domain test of line 380. -/
def isAggregatorHref (href : Str) : Bool :=
  isSubstr ("shiksha.com").toList href ∨
  isSubstr ("collegedunia.com").toList href ∨
  isSubstr ("careers360.com").toList href

/-- The topic-keyword test of line 382 on the lowercased href. -/
def aggregatorKeywordOk (intent href : Str) : Bool :=
  isSubstr intent (pyLower href) ∨
  isSubstr ("placement").toList (pyLower href) ∨
  isSubstr ("fees").toList (pyLower href) ∨
  isSubstr ("admission").toList (pyLower href) ∨
  isSubstr ("hostel").toList (pyLower href) ∨
  isSubstr ("infra").toList (pyLower href)

/-- The inner result scan of `scrape_from_aggregators` (lines 378-384):
first result whose href is on an aggregator domain and passes the
keyword test. -/
def findInResults (intent : Str) (results : List SearchResult) : Option Str :=
  (results.find? (fun res => isAggregatorHref res.href ∧
    aggregatorKeywordOk intent res.href)).map (·.href)

/-- The query loop of `scrape_from_aggregators` (lines 367-387): for each
query, DuckDuckGo Lite first, SearXNG on empty, then scan the results;
the first query that yields a matching URL wins.  `ddg` and `searx` are
the provider effects (query to processed results). -/
def aggregatorQueryLoop (ddg searx : Str → List SearchResult) (intent : Str) :
    List Str → Option Str
  | [] => none
  | q :: qs =>
      let results := ddg q
      let results := if results = [] then searx q else results
      match findInResults intent results with
      | some u => some u
      | none => aggregatorQueryLoop ddg searx intent qs

/-- See `aggregatorQueryLoop` for the loop body. -/
def findAggregatorUrl (ddg searx : Str → List SearchResult)
    (college_name intent : Str) : Option Str :=
  aggregatorQueryLoop ddg searx intent (aggregatorQueries college_name intent)

/-- `scrape_from_aggregators(college_name, intent)` (dynamic_scraper.py
lines 347-444): the `fetchAggregatorContent` operation.  `scrapePage u`
is the outcome of the Playwright render-scroll-expand-extract sequence
on `u` (`none` models an exception). -/
def scrape_from_aggregators (ddg searx : Str → List SearchResult)
    (scrapePage : Str → Option Str) (college_name intent : Str) :
    Option PageRecord :=
  if (AGGREGATOR_SITES.map (·.1)).contains intent then
    match findAggregatorUrl ddg searx college_name intent with
    | none => none
    | some found_url =>
        match scrapePage found_url with
        | none => none
        | some content =>
            if content ≠ [] ∧ 500 < content.length then
              some ⟨intent, content, found_url⟩
            else none
  else none

/-! ## General lemmas -/

theorem pyLower_append (a b : Str) : pyLower (a ++ b) = pyLower a ++ pyLower b :=
  List.map_append _ _ _

theorem scanSuffixes_of_self (f : Str → Bool) (s : Str) (h : f s = true) :
    scanSuffixes f s = true := by
  cases s with
  | nil => simpa [scanSuffixes] using h
  | cons c rest =>
      simp only [scanSuffixes, decide_eq_true_eq]
      exact Or.inl h

theorem scanSuffixes_append_of (f : Str → Bool) (a b : Str)
    (h : scanSuffixes f b = true) : scanSuffixes f (a ++ b) = true := by
  induction a with
  | nil => simpa using h
  | cons c cs ih =>
      simp only [List.cons_append, scanSuffixes, decide_eq_true_eq]
      exact Or.inr ih

/-! ## Claim C10 -/

/-- C10: for every topic other than `placements` and `fees`, the adequacy
predicate `has_specific_data(text, topic)` returns `True` for every text,
including the empty string. -/
theorem C10_adequacy_trivial_for_other_topics (content intent : Str)
    (h1 : intent ≠ ("placements").toList) (h2 : intent ≠ ("fees").toList) :
    has_specific_data content intent = true := by
  unfold has_specific_data
  rw [if_neg h1, if_neg h2]

/-- Witness for C10 at topic `about` and the empty text. -/
theorem C10_adequacy_trivial_for_other_topics_witness :
    has_specific_data [] (("about").toList) = true :=
  C10_adequacy_trivial_for_other_topics [] (("about").toList)
    (by decide) (by decide)

/-! ## Claim C7 -/

theorem fees_literal_chars : ("₹50,000 per year").toList =
    '₹' :: '5' :: '0' :: ',' :: '0' :: '0' :: '0' :: ' ' :: 'p' :: 'e' :: 'r' ::
    ' ' :: 'y' :: 'e' :: 'a' :: 'r' :: [] := by decide

theorem feesMatchAt_amount (t : Str) : feesMatchAt
    ('5' :: '0' :: ',' :: '0' :: '0' :: '0' :: ' ' :: 'p' :: 'e' :: 'r' :: ' ' ::
     'y' :: 'e' :: 'a' :: 'r' :: [] ++ t) = true := by
  simp [feesMatchAt, feeCurrencyMatchAt, feeAmountMatchAt, feeAmountTail, perPeriodAt,
    mojibakeRupee, isReDigit, isPySpace, List.takeWhile_cons, List.dropWhile_cons]

/-- C7: `isAdequate(text, "fees")` is true for every text containing the
substring `₹50,000 per year` (the numeric `per year` phrase matches the
second regex alternative) and false for the text `fees are applicable`. -/
theorem C7_fees_adequacy :
    (∀ pre post : Str,
      has_specific_data (pre ++ ("₹50,000 per year").toList ++ post)
        (("fees").toList) = true) ∧
    has_specific_data (("fees are applicable").toList) (("fees").toList) = false := by
  constructor
  · intro pre post
    unfold has_specific_data
    rw [if_neg (by decide), if_pos rfl]
    rw [pyLower_append, pyLower_append, fees_literal_chars]
    have hl : pyLower ('₹' :: '5' :: '0' :: ',' :: '0' :: '0' :: '0' :: ' ' :: 'p' ::
        'e' :: 'r' :: ' ' :: 'y' :: 'e' :: 'a' :: 'r' :: []) =
        '₹' :: '5' :: '0' :: ',' :: '0' :: '0' :: '0' :: ' ' :: 'p' :: 'e' :: 'r' ::
        ' ' :: 'y' :: 'e' :: 'a' :: 'r' :: [] := by decide
    rw [hl]
    have hre : (pyLower pre ++ ('₹' :: '5' :: '0' :: ',' :: '0' :: '0' :: '0' :: ' ' ::
        'p' :: 'e' :: 'r' :: ' ' :: 'y' :: 'e' :: 'a' :: 'r' :: [])) ++ pyLower post =
        (pyLower pre ++ ('₹' :: [])) ++
        ('5' :: '0' :: ',' :: '0' :: '0' :: '0' :: ' ' :: 'p' :: 'e' :: 'r' :: ' ' ::
         'y' :: 'e' :: 'a' :: 'r' :: [] ++ pyLower post) := by
      simp
    rw [hre]
    exact scanSuffixes_append_of _ _ _
      (scanSuffixes_of_self _ _ (feesMatchAt_amount (pyLower post)))
  · decide

/-! ## Claim C8 -/

theorem portalLoop_eq_none (swd : Str → Option Str) (patterns : List Str)
    (intent : Str) (urls : List Str)
    (h : ∀ u ∈ urls, patterns.any (fun p => isSubstr p (pyLower u)) = true →
      ∀ c, swd u = some c → c.length ≤ 300) :
    portalLoop swd patterns intent urls = none := by
  induction urls with
  | nil => rfl
  | cons u rest ih =>
      have hrest := fun v hv => h v (List.mem_cons_of_mem _ hv)
      by_cases hpat : patterns.any (fun p => isSubstr p (pyLower u)) = true
      · cases hswd : swd u with
        | none => simp [portalLoop, hpat, hswd, ih hrest]
        | some content =>
            have hle := h u (List.mem_cons_self _ _) hpat content hswd
            have h3 : ¬ (300 < content.length) := by omega
            simp [portalLoop, hpat, hswd, h3, ih hrest]
      · simp [portalLoop, hpat, ih hrest]

theorem pathLoop_eq_none (swd : Str → Option Str) (base_url intent : Str)
    (paths : List Str)
    (h : ∀ p ∈ paths, ∀ c, swd (pyUrljoin base_url p) = some c →
      c.length ≤ 300) :
    pathLoop swd base_url intent paths = none := by
  induction paths with
  | nil => rfl
  | cons p rest ih =>
      have hrest := fun q hq => h q (List.mem_cons_of_mem _ hq)
      cases hswd : swd (pyUrljoin base_url p) with
      | none => simp [pathLoop, hswd, ih hrest]
      | some content =>
          have hle := h p (List.mem_cons_self _ _) content hswd
          have h3 : ¬ (300 < content.length) := by omega
          simp [pathLoop, hswd, h3, ih hrest]

/-- C8: if no discovered portal matching the topic and no standard path
yields extracted text over 300 characters, but the base page's own
scrape yields more than 200 characters, then `scrape_for_intent` returns
a record with `page_type = "general"` and `source_url` equal to the base
URL, not `none`. -/
theorem C8_general_fallback_on_base (swd : Str → Option Str)
    (homepage : Option (List Str)) (base_url intent cb : Str)
    (hportals : ∀ disc, homepage = some disc → ∀ u ∈ disc,
      (intentLookup INTENT_URL_PATTERNS intent).any
        (fun p => isSubstr p (pyLower u)) = true →
      ∀ c, swd u = some c → c.length ≤ 300)
    (hpaths : ∀ p ∈ intentLookup INTENT_TO_PATHS intent,
      ∀ c, swd (pyUrljoin base_url p) = some c → c.length ≤ 300)
    (hbase : swd base_url = some cb) (hlen : 200 < cb.length) :
    scrape_for_intent swd homepage base_url intent =
      some ⟨("general").toList, cb, base_url⟩ := by
  have hne : cb ≠ [] := by
    intro hcb
    rw [hcb] at hlen
    simp at hlen
  cases hh : homepage with
  | none =>
      simp [scrape_for_intent, pathLoop_eq_none _ _ _ _ hpaths, hbase, hne, hlen]
  | some disc =>
      have h1 : portalLoop swd (intentLookup INTENT_URL_PATTERNS intent) intent
          disc = none := portalLoop_eq_none _ _ _ _ (hportals disc hh)
      simp [scrape_for_intent, h1, pathLoop_eq_none _ _ _ _ hpaths, hbase, hne, hlen]

/-- Witness fixture for C8: the homepage URL. -/
def c8Base : Str := ("https://xyz.ac.in").toList

/-- Witness fixture for C8: a scrape effect that yields 201 characters on
the homepage and fails everywhere else. -/
def c8Swd : Str → Option Str :=
  fun u => if u = c8Base then some (List.replicate 201 'z') else none

/-- Witness for C8: with no discovered portals and failing standard
paths, a 201-character homepage produces the `general` record. -/
theorem C8_general_fallback_on_base_witness :
    scrape_for_intent c8Swd (some []) c8Base (("placements").toList) =
      some ⟨("general").toList, List.replicate 201 'z', c8Base⟩ := by
  have hbase : c8Swd c8Base = some (List.replicate 201 'z') := by
    unfold c8Swd
    rw [if_pos rfl]
  refine C8_general_fallback_on_base c8Swd (some []) c8Base
    (("placements").toList) (List.replicate 201 'z') ?_ ?_ hbase
    (by rw [List.length_replicate]; omega)
  · intro disc hdisc u hu
    cases hdisc
    cases hu
  · intro p hp c hc
    fin_cases hp <;>
      · unfold c8Swd at hc
        rw [if_neg (by decide)] at hc
        cases hc

/-! ## Claim C2 -/

/-- The claim's description of the query loop, formalized from the spec
sentence: each query runs through the meta-search provider (SearXNG)
first and the lightweight text-search endpoint (DuckDuckGo Lite) second.
The source does the opposite; this definition exists to state that
difference. -/
def aggregatorQueryLoopSpecOrder (ddg searx : Str → List SearchResult)
    (intent : Str) : List Str → Option Str
  | [] => none
  | q :: qs =>
      let results := searx q
      let results := if results = [] then ddg q else results
      match findInResults intent results with
      | some u => some u
      | none => aggregatorQueryLoopSpecOrder ddg searx intent qs

/-- `scrape_from_aggregators` as the claim describes it (meta-search
provider queried first). -/
def scrape_from_aggregators_specOrder (ddg searx : Str → List SearchResult)
    (scrapePage : Str → Option Str) (college_name intent : Str) :
    Option PageRecord :=
  if (AGGREGATOR_SITES.map (·.1)).contains intent then
    match aggregatorQueryLoopSpecOrder ddg searx intent
        (aggregatorQueries college_name intent) with
    | none => none
    | some found_url =>
        match scrapePage found_url with
        | none => none
        | some content =>
            if content ≠ [] ∧ 500 < content.length then
              some ⟨intent, content, found_url⟩
            else none
  else none

/-- Counterexample fixture: the aggregator URL DuckDuckGo Lite finds. -/
def c2Shiksha : Str := ("https://www.shiksha.com/college/iit-placements").toList

/-- Counterexample fixture: the aggregator URL SearXNG finds. -/
def c2Dunia : Str := ("https://collegedunia.com/college/iit/placements").toList

/-- Counterexample fixture: DuckDuckGo Lite results. -/
def c2Ddg : Str → List SearchResult := fun _ => [⟨c2Shiksha, ('t' :: [])⟩]

/-- Counterexample fixture: SearXNG results. -/
def c2Searx : Str → List SearchResult := fun _ => [⟨c2Dunia, ('t' :: [])⟩]

/-- Counterexample fixture: every page scrapes to 501 characters. -/
def c2Scrape : Str → Option Str := fun _ => some (List.replicate 501 'c')

set_option maxRecDepth 4000 in
/-- Counterexample to C2 as stated: when both providers have results for
the first query, the source returns the DuckDuckGo Lite hit, not the
SearXNG (meta-search) hit the claim's provider order would produce — so
`fetchAggregatorContent` does not query the meta-search provider first. -/
theorem C2_counterexample_provider_order :
    (scrape_from_aggregators c2Ddg c2Searx c2Scrape (("iit").toList)
      (("placements").toList)).map PageRecord.source_url = some c2Shiksha ∧
    (scrape_from_aggregators_specOrder c2Ddg c2Searx c2Scrape (("iit").toList)
      (("placements").toList)).map PageRecord.source_url = some c2Dunia ∧
    c2Shiksha ≠ c2Dunia := by
  refine ⟨?_, ?_, by decide⟩ <;> decide

/-- The amended claim's query loop, written from its words: for each
site-restricted query in order, take the lightweight text-search
endpoint's results, falling back to the meta-search provider when they
are empty, and return the first hit on an aggregator domain containing
the topic keyword or a related keyword. -/
def findAggregatorUrlAmended (ddg searx : Str → List SearchResult)
    (college_name intent : Str) : Option Str :=
  (aggregatorQueries college_name intent).findSome? (fun q =>
    findInResults intent (if ddg q = [] then searx q else ddg q))

/-- `fetchAggregatorContent` as amended: lightweight text search first,
meta-search on empty, stop at the first matching URL; `none` without one. -/
def scrape_from_aggregators_amended (ddg searx : Str → List SearchResult)
    (scrapePage : Str → Option Str) (college_name intent : Str) :
    Option PageRecord :=
  if (AGGREGATOR_SITES.map (·.1)).contains intent then
    (findAggregatorUrlAmended ddg searx college_name intent).bind (fun found_url =>
      (scrapePage found_url).bind (fun content =>
        if content ≠ [] ∧ 500 < content.length then
          some ⟨intent, content, found_url⟩
        else none))
  else none

theorem aggregatorQueryLoop_eq_findSome? (ddg searx : Str → List SearchResult)
    (intent : Str) (qs : List Str) :
    aggregatorQueryLoop ddg searx intent qs =
      qs.findSome? (fun q =>
        findInResults intent (if ddg q = [] then searx q else ddg q)) := by
  induction qs with
  | nil => rfl
  | cons q rest ih =>
      rw [List.findSome?_cons]
      unfold aggregatorQueryLoop
      cases h : findInResults intent (if ddg q = [] then searx q else ddg q) with
      | none => simpa [h] using ih
      | some u => simp [h]

/-- C2 amended: `fetchAggregatorContent(name, topic)` runs one
site-restricted query per aggregator domain, querying the lightweight
text-search endpoint (DuckDuckGo Lite) first and the meta-search
provider (SearXNG) second, stopping at the first result URL on an
aggregator domain that contains the topic keyword or a related keyword;
if no such URL is found across all queries, it returns `none`. -/
theorem C2_aggregator_fallback_search (ddg searx : Str → List SearchResult)
    (scrapePage : Str → Option Str) (college_name intent : Str) :
    scrape_from_aggregators ddg searx scrapePage college_name intent =
      scrape_from_aggregators_amended ddg searx scrapePage college_name intent ∧
    (findAggregatorUrl ddg searx college_name intent = none →
      scrape_from_aggregators ddg searx scrapePage college_name intent = none) := by
  have hfind : findAggregatorUrl ddg searx college_name intent =
      findAggregatorUrlAmended ddg searx college_name intent := by
    unfold findAggregatorUrl findAggregatorUrlAmended
    exact aggregatorQueryLoop_eq_findSome? _ _ _ _
  constructor
  · unfold scrape_from_aggregators scrape_from_aggregators_amended
    rw [← hfind]
    by_cases hi : (AGGREGATOR_SITES.map (·.1)).contains intent = true
    · rw [if_pos hi, if_pos hi]
      cases findAggregatorUrl ddg searx college_name intent with
      | none => rfl
      | some found_url =>
          dsimp only [Option.some_bind]
          cases scrapePage found_url with
          | none => rfl
          | some content => rfl
    · rw [if_neg hi, if_neg hi]
  · intro hnone
    unfold scrape_from_aggregators
    rw [hnone]
    by_cases hi : (AGGREGATOR_SITES.map (·.1)).contains intent = true
    · rw [if_pos hi]
    · rw [if_neg hi]

/-- Witness for C2's amended theorem: with no provider results at all,
the operation returns `none`. -/
theorem C2_aggregator_fallback_search_witness :
    scrape_from_aggregators (fun _ => []) (fun _ => []) (fun _ => none)
      (("iit").toList) (("placements").toList) = none :=
  (C2_aggregator_fallback_search (fun _ => []) (fun _ => []) (fun _ => none)
    (("iit").toList) (("placements").toList)).2 (by decide)

/-! ## Claims C4 and C9: URL roundtrip lemmas -/

theorem pyLowerChar_toNat_upper (c : Char) (h : 65 ≤ c.toNat ∧ c.toNat ≤ 90) :
    (pyLowerChar c).toNat = c.toNat + 32 := by
  unfold pyLowerChar
  rw [if_pos h]
  have hv : (c.toNat + 32).isValidChar := Or.inl (by omega)
  unfold Char.ofNat
  rw [dif_pos hv]
  rfl

theorem pyLowerChar_eq_of_not_upper (c : Char)
    (h : ¬ (65 ≤ c.toNat ∧ c.toNat ≤ 90)) : pyLowerChar c = c := by
  unfold pyLowerChar
  rw [if_neg h]

theorem pyLowerChar_schemeChar (c : Char) (h : isSchemeChar c = true) :
    isSchemeChar (pyLowerChar c) = true := by
  by_cases hu : 65 ≤ c.toNat ∧ c.toNat ≤ 90
  · have ht := pyLowerChar_toNat_upper c hu
    unfold isSchemeChar isAsciiAlpha
    simp only [decide_eq_true_eq]
    exact Or.inl (Or.inr ⟨by omega, by omega⟩)
  · rw [pyLowerChar_eq_of_not_upper c hu]
    exact h

theorem pyLowerChar_ne_colon (c : Char) (h : c ≠ ':') : pyLowerChar c ≠ ':' := by
  by_cases hu : 65 ≤ c.toNat ∧ c.toNat ≤ 90
  · have ht := pyLowerChar_toNat_upper c hu
    intro heq
    rw [heq] at ht
    have : (':' : Char).toNat = 58 := by decide
    omega
  · rw [pyLowerChar_eq_of_not_upper c hu]
    exact h

theorem pyLowerChar_idem (c : Char) :
    pyLowerChar (pyLowerChar c) = pyLowerChar c := by
  by_cases hu : 65 ≤ c.toNat ∧ c.toNat ≤ 90
  · have ht := pyLowerChar_toNat_upper c hu
    apply pyLowerChar_eq_of_not_upper
    omega
  · rw [pyLowerChar_eq_of_not_upper c hu]
    exact pyLowerChar_eq_of_not_upper c hu

theorem pyLower_idem (s : Str) : pyLower (pyLower s) = pyLower s := by
  unfold pyLower
  rw [List.map_map]
  exact List.map_congr_left (fun c _ => pyLowerChar_idem c)

theorem takeWhile_append_stop (p : Char → Bool) (q : Str)
    (hq : ∀ c ∈ q, p c = true) (c : Char) (hc : ¬ p c = true) (r : Str) :
    (q ++ c :: r).takeWhile p = q := by
  induction q with
  | nil => simp [List.takeWhile_cons, hc]
  | cons a as ih =>
      simp only [List.cons_append, List.takeWhile_cons,
        hq a (List.mem_cons_self _ _), if_true]
      rw [ih (fun x hx => hq x (List.mem_cons_of_mem _ hx))]

theorem schemeChar_ne_colon (c : Char) (h : isSchemeChar c = true) : c ≠ ':' := by
  intro heq
  subst heq
  exact absurd h (by decide)

theorem pyUrlparse_of_splitScheme_some (u : Str) (sch rest : Str)
    (h : splitScheme u = some (sch, rest)) :
    pyUrlparse u = if ('/' :: '/' :: []) <+: rest
      then (pyLower sch, (rest.drop 2).takeWhile (fun c => ¬ isNetlocEnd c))
      else (pyLower sch, []) := by
  unfold pyUrlparse
  rw [h]

theorem pyUrlparse_of_splitScheme_none (u : Str)
    (h : splitScheme u = none) :
    pyUrlparse u = if ('/' :: '/' :: []) <+: u
      then ([], (u.drop 2).takeWhile (fun c => ¬ isNetlocEnd c))
      else ([], []) := by
  unfold pyUrlparse
  rw [h]

/-- Parsing the rebuilt `scheme://netloc` of an `http`-prefixed URL gives
back the same scheme and netloc. -/
theorem pyUrlparse_rootUrl (u : Str) (hu : ("http").toList <+: u) :
    pyUrlparse (rootUrl u) = pyUrlparse u := by
  cases hsp : splitScheme u with
  | none =>
      have hparse : pyUrlparse u = ([], []) := by
        rw [pyUrlparse_of_splitScheme_none u hsp, if_neg]
        obtain ⟨r, rfl⟩ := hu
        rintro ⟨r2, hr2⟩
        cases hr2
      unfold rootUrl
      rw [hparse]
      decide
  | some pair =>
      obtain ⟨sch, rest⟩ := pair
      have hy : ¬ (u.takeWhile (fun c => c ≠ ':')).length = u.length ∧
          u.takeWhile (fun c => c ≠ ':') ≠ [] ∧
          (u.takeWhile (fun c => c ≠ ':')).all isSchemeChar ∧
          sch = u.takeWhile (fun c => c ≠ ':') ∧
          rest = u.drop ((u.takeWhile (fun c => c ≠ ':')).length + 1) := by
        unfold splitScheme at hsp
        by_cases h1 : (u.takeWhile (fun c => c ≠ ':')).length = u.length
        · rw [if_pos h1] at hsp
          cases hsp
        · rw [if_neg h1] at hsp
          by_cases h2 : u.takeWhile (fun c => c ≠ ':') ≠ [] ∧
              (u.takeWhile (fun c => c ≠ ':')).all isSchemeChar
          · rw [if_pos h2] at hsp
            cases hsp
            exact ⟨h1, h2.1, h2.2, rfl, rfl⟩
          · rw [if_neg h2] at hsp
            cases hsp
      obtain ⟨hlen, hne, hall, hs1, hs2⟩ := hy
      have hschAll : ∀ c ∈ sch, isSchemeChar c = true := by
        intro c hc
        exact List.all_eq_true.mp hall c (hs1 ▸ hc)
      have hlowAll : ∀ c ∈ pyLower sch, isSchemeChar c = true := by
        intro c hc
        obtain ⟨c0, hc0, rfl⟩ := List.mem_map.mp hc
        exact pyLowerChar_schemeChar c0 (hschAll c0 hc0)
      have hlowNoColon : ∀ c ∈ pyLower sch, (decide (c ≠ ':')) = true := by
        intro c hc
        obtain ⟨c0, hc0, rfl⟩ := List.mem_map.mp hc
        simpa using pyLowerChar_ne_colon c0
          (schemeChar_ne_colon c0 (hschAll c0 hc0))
      have hlne : pyLower sch ≠ [] := by
        intro hmapnil
        exact (hs1 ▸ hne) (List.map_eq_nil_iff.mp hmapnil)
      rw [pyUrlparse_of_splitScheme_some u sch rest hsp]
      by_cases hpp : ('/' :: '/' :: []) <+: rest
      · rw [if_pos hpp]
        set n := (rest.drop 2).takeWhile (fun c => ¬ isNetlocEnd c) with hnd
        have hn : ∀ x ∈ n, (decide (¬ isNetlocEnd x = true)) = true := by
          intro x hx
          rw [hnd] at hx
          have h3 := List.mem_takeWhile_imp hx
          exact h3
        have hsplit2 : splitScheme (pyLower sch ++ (':' :: '/' :: '/' :: []) ++ n) =
            some (pyLower sch, '/' :: '/' :: n) := by
          unfold splitScheme
          have htake : ((pyLower sch ++ (':' :: '/' :: '/' :: []) ++ n)).takeWhile
              (fun c => c ≠ ':') = pyLower sch := by
            rw [List.append_assoc]
            exact takeWhile_append_stop _ _ hlowNoColon ':' (by simp) _
          rw [htake]
          rw [if_neg (by
            simp only [List.length_append, List.length_cons]
            omega)]
          rw [if_pos ⟨hlne, List.all_eq_true.mpr hlowAll⟩]
          have heq : pyLower sch ++ (':' :: '/' :: '/' :: []) ++ n =
              (pyLower sch ++ (':' :: [])) ++ ('/' :: '/' :: n) := by simp
          rw [heq]
          have hlen2 : (pyLower sch).length + 1 =
              (pyLower sch ++ (':' :: [])).length := by simp
          rw [hlen2, List.drop_left]
        unfold rootUrl
        rw [pyUrlparse_of_splitScheme_some u sch rest hsp, if_pos hpp]
        rw [pyUrlparse_of_splitScheme_some _ _ _ hsplit2]
        rw [if_pos ⟨n, rfl⟩]
        have h2 : (('/' :: '/' :: n).drop 2).takeWhile
            (fun c => ¬ isNetlocEnd c) = n := by
          apply List.takeWhile_eq_self_iff.mpr
          intro x hx
          exact hn x hx
        rw [h2, pyLower_idem]
      · rw [if_neg hpp]
        have hsplit2 : splitScheme (pyLower sch ++ (':' :: '/' :: '/' :: []) ++ []) =
            some (pyLower sch, '/' :: '/' :: []) := by
          unfold splitScheme
          have htake : ((pyLower sch ++ (':' :: '/' :: '/' :: []) ++ [])).takeWhile
              (fun c => c ≠ ':') = pyLower sch := by
            rw [List.append_assoc]
            exact takeWhile_append_stop _ _ hlowNoColon ':' (by simp) _
          rw [htake]
          rw [if_neg (by
            simp only [List.length_append, List.length_cons, List.length_nil]
            omega)]
          rw [if_pos ⟨hlne, List.all_eq_true.mpr hlowAll⟩]
          have heq : pyLower sch ++ (':' :: '/' :: '/' :: []) ++ ([] : Str) =
              (pyLower sch ++ (':' :: [])) ++ ('/' :: '/' :: []) := by simp
          rw [heq]
          have hlen2 : (pyLower sch).length + 1 =
              (pyLower sch ++ (':' :: [])).length := by simp
          rw [hlen2, List.drop_left]
        unfold rootUrl
        rw [pyUrlparse_of_splitScheme_some u sch rest hsp, if_neg hpp]
        rw [pyUrlparse_of_splitScheme_some _ _ _ hsplit2]
        rw [if_pos ⟨[], rfl⟩]
        rw [pyLower_idem]
        rfl

/-! ### `str.replace("www.", "")` preserves excluded-domain occurrences

The Playwright provider tests the exclusion list against
`netloc.replace("www.", "")` while the stored hostname is the raw
netloc.  Removing `www.` segments cannot destroy an occurrence of any
exclusion-list entry, because no entry overlaps the pattern `www.`:
no entry is empty, starts with `.`, `w.`, `ww.` or `www.`, ends with
`w`, or contains `www.`. -/

/-- The removal pattern of `replace("www.", "")`. -/
def wwwPat : Str := 'w' :: 'w' :: 'w' :: '.' :: []

/-- The no-overlap conditions an exclusion-list entry satisfies. -/
def cleanEntry (p : Str) : Prop :=
  p ≠ [] ∧ p.head? ≠ some '.' ∧
  ¬ (('w' :: '.' :: []) <+: p) ∧ ¬ (('w' :: 'w' :: '.' :: []) <+: p) ∧
  ¬ (wwwPat <+: p) ∧ p.getLast? ≠ some 'w' ∧ ¬ (wwwPat <:+: p)

theorem suffix_getLast? (q p : Str) (h : q <:+ p) (hq : q ≠ []) :
    p.getLast? = q.getLast? := by
  obtain ⟨r, rfl⟩ := h
  rw [List.getLast?_append]
  cases hq' : q.getLast? with
  | none => exact absurd (List.getLast?_eq_none_iff.mp hq') hq
  | some c => rfl

theorem removeWWW_www (r : Str) :
    removeWWW ('w' :: 'w' :: 'w' :: '.' :: r) = removeWWW r := by
  rw [removeWWW]
  rw [if_pos ⟨r, rfl⟩]
  rfl

theorem removeWWW_cons_not (c : Char) (t : Str)
    (h : ¬ wwwPat <+: (c :: t)) : removeWWW (c :: t) = c :: removeWWW t := by
  rw [removeWWW]
  rw [if_neg (by
    intro hp
    exact h hp)]

theorem pyLower_www (r : Str) :
    pyLower ('w' :: 'w' :: 'w' :: '.' :: r) =
      'w' :: 'w' :: 'w' :: '.' :: pyLower r := by
  show pyLowerChar 'w' :: pyLowerChar 'w' :: pyLowerChar 'w' ::
    pyLowerChar '.' :: pyLower r = _
  rw [show pyLowerChar 'w' = 'w' from by decide,
    show pyLowerChar '.' = '.' from by decide]

theorem prefix_wwwPat_cases (q : Str) (h : q <+: wwwPat) :
    q = [] ∨ q = ('w' :: []) ∨ q = ('w' :: 'w' :: []) ∨
    q = ('w' :: 'w' :: 'w' :: []) ∨ q = wwwPat := by
  obtain ⟨r, hr⟩ := h
  rcases q with _ | ⟨a, _ | ⟨b, _ | ⟨c, _ | ⟨d, q4⟩⟩⟩⟩
  · exact Or.inl rfl
  · simp only [wwwPat, List.cons_append, List.nil_append, List.cons.injEq] at hr
    exact Or.inr (Or.inl (by rw [hr.1]))
  · simp only [wwwPat, List.cons_append, List.nil_append, List.cons.injEq] at hr
    exact Or.inr (Or.inr (Or.inl (by rw [hr.1, hr.2.1])))
  · simp only [wwwPat, List.cons_append, List.nil_append, List.cons.injEq] at hr
    exact Or.inr (Or.inr (Or.inr (Or.inl (by rw [hr.1, hr.2.1, hr.2.2.1]))))
  · simp only [wwwPat, List.cons_append, List.nil_append, List.cons.injEq,
      List.append_eq_nil] at hr
    refine Or.inr (Or.inr (Or.inr (Or.inr ?_)))
    rw [hr.1, hr.2.1, hr.2.2.1, hr.2.2.2.1, hr.2.2.2.2.1]
    rfl

/-- A nonempty suffix of a clean entry cannot be a prefix of
`www. ++ anything`. -/
theorem clean_suffix_not_prefix_www (p : Str) (hc : cleanEntry p) (q : Str)
    (hqp : q <:+ p) (hq : q ≠ []) (x : Str) (hpre : q <+: wwwPat ++ x) :
    False := by
  rcases List.prefix_or_prefix_of_prefix hpre (List.prefix_append wwwPat x) with
    h1 | h1
  · rcases prefix_wwwPat_cases q h1 with rfl | rfl | rfl | rfl | rfl
    · exact hq rfl
    · exact hc.2.2.2.2.2.1 (by rw [suffix_getLast? _ p hqp hq]; rfl)
    · exact hc.2.2.2.2.2.1 (by rw [suffix_getLast? _ p hqp hq]; rfl)
    · exact hc.2.2.2.2.2.1 (by rw [suffix_getLast? _ p hqp hq]; rfl)
    · exact hc.2.2.2.2.2.2 (hqp.isInfix)
  · obtain ⟨r0, hr0⟩ := hqp
    obtain ⟨r1, rfl⟩ := h1
    exact hc.2.2.2.2.2.2 ⟨r0, r1, by rw [List.append_assoc]; exact hr0⟩

theorem prefix_lower_removeWWW (p : Str) (hc : cleanEntry p) :
    ∀ n (s q : Str), s.length ≤ n → q <:+ p → q <+: pyLower s →
    q <+: pyLower (removeWWW s) := by
  intro n
  induction n with
  | zero =>
      intro s q hs hqp hq
      have hs0 : s = [] := List.length_eq_zero.mp (Nat.le_zero.mp hs)
      subst hs0
      have hq0 : q = [] := List.prefix_nil.mp hq
      subst hq0
      exact List.nil_prefix
  | succ m ih =>
      intro s q hs hqp hq
      cases s with
      | nil =>
          have hq0 : q = [] := List.prefix_nil.mp hq
          subst hq0
          exact List.nil_prefix
      | cons c t =>
          by_cases hwww : wwwPat <+: (c :: t)
          · obtain ⟨r, hr⟩ := hwww
            have hshape : c :: t = 'w' :: 'w' :: 'w' :: '.' :: r := by
              rw [← hr]
              rfl
            rw [hshape] at hq hs ⊢
            rw [removeWWW_www]
            rw [pyLower_www] at hq
            cases q with
            | nil => exact List.nil_prefix
            | cons d q' =>
                exfalso
                exact clean_suffix_not_prefix_www p hc (d :: q') hqp
                  (by simp) (pyLower r) hq
          · rw [removeWWW_cons_not c t hwww]
            cases q with
            | nil => exact List.nil_prefix
            | cons d q' =>
                have hq' := List.cons_prefix_cons.mp hq
                obtain ⟨rfl, hq2⟩ := hq'
                have hq'p : q' <:+ p := by
                  obtain ⟨r0, hr0⟩ := hqp
                  exact ⟨r0 ++ (pyLowerChar c :: []), by
                    rw [← hr0]
                    simp⟩
                have hres := ih t q' (by
                  simp only [List.length_cons] at hs
                  omega) hq'p hq2
                show pyLowerChar c :: q' <+: pyLower (c :: removeWWW t)
                exact List.cons_prefix_cons.mpr ⟨rfl, hres⟩

theorem infix_lower_removeWWW (p : Str) (hc : cleanEntry p) :
    ∀ n (s : Str), s.length ≤ n → p <:+: pyLower s →
    p <:+: pyLower (removeWWW s) := by
  intro n
  induction n with
  | zero =>
      intro s hs hp
      have hs0 : s = [] := List.length_eq_zero.mp (Nat.le_zero.mp hs)
      subst hs0
      have hp0 : p = [] := List.infix_nil.mp hp
      subst hp0
      exact List.nil_infix
  | succ m ih =>
      intro s hs hp
      cases s with
      | nil =>
          have hp0 : p = [] := List.infix_nil.mp hp
          subst hp0
          exact List.nil_infix
      | cons c t =>
          by_cases hwww : wwwPat <+: (c :: t)
          · obtain ⟨r, hr⟩ := hwww
            have hshape : c :: t = 'w' :: 'w' :: 'w' :: '.' :: r := by
              rw [← hr]
              rfl
            rw [hshape] at hp hs ⊢
            rw [removeWWW_www]
            rw [pyLower_www] at hp
            have hr_len : r.length ≤ m := by
              simp only [List.length_cons] at hs
              omega
            obtain ⟨pre, suf, hsum⟩ := hp
            have hpre1 : pre <+: wwwPat ++ pyLower r :=
              ⟨p ++ suf, by rw [← List.append_assoc]; exact hsum⟩
            rcases List.prefix_or_prefix_of_prefix hpre1
              (List.prefix_append wwwPat (pyLower r)) with h1 | h1
            · rcases prefix_wwwPat_cases pre h1 with rfl | rfl | rfl | rfl | rfl
              · -- p starts at position 0 of "www." ++ lower r
                exfalso
                have hppre : p <+: wwwPat ++ pyLower r :=
                  ⟨suf, by simpa using hsum⟩
                exact clean_suffix_not_prefix_www p hc p
                  (List.suffix_refl p) hc.1 (pyLower r) hppre
              · -- p starts at position 1: p ++ suf = "ww." ++ lower r
                exfalso
                have h4 : ('w' :: []) ++ (p ++ suf) =
                    ('w' :: []) ++ (('w' :: 'w' :: '.' :: []) ++ pyLower r) := by
                  rw [← List.append_assoc]
                  exact hsum
                have hppre : p <+: ('w' :: 'w' :: '.' :: []) ++ pyLower r :=
                  ⟨suf, List.append_cancel_left h4⟩
                rcases List.prefix_or_prefix_of_prefix hppre
                  (List.prefix_append _ _) with h2 | h2
                · obtain ⟨r2, hr2⟩ := h2
                  rcases p with _ | ⟨a, _ | ⟨b, _ | ⟨e, p4⟩⟩⟩
                  · exact hc.1 rfl
                  · simp only [List.cons_append, List.nil_append,
                      List.cons.injEq] at hr2
                    obtain ⟨rfl, -⟩ := hr2
                    exact hc.2.2.2.2.2.1 rfl
                  · simp only [List.cons_append, List.nil_append,
                      List.cons.injEq] at hr2
                    obtain ⟨rfl, rfl, -⟩ := hr2
                    exact hc.2.2.2.2.2.1 rfl
                  · simp only [List.cons_append, List.nil_append,
                      List.cons.injEq, List.append_eq_nil] at hr2
                    obtain ⟨rfl, rfl, rfl, rfl, rfl⟩ := hr2
                    exact hc.2.2.2.1 (List.prefix_refl _)
                · exact hc.2.2.2.1 h2
              · -- p starts at position 2: p ++ suf = "w." ++ lower r
                exfalso
                have h4 : ('w' :: 'w' :: []) ++ (p ++ suf) =
                    ('w' :: 'w' :: []) ++ (('w' :: '.' :: []) ++ pyLower r) := by
                  rw [← List.append_assoc]
                  exact hsum
                have hppre : p <+: ('w' :: '.' :: []) ++ pyLower r :=
                  ⟨suf, List.append_cancel_left h4⟩
                rcases List.prefix_or_prefix_of_prefix hppre
                  (List.prefix_append _ _) with h2 | h2
                · obtain ⟨r2, hr2⟩ := h2
                  rcases p with _ | ⟨a, _ | ⟨b, p3⟩⟩
                  · exact hc.1 rfl
                  · simp only [List.cons_append, List.nil_append,
                      List.cons.injEq] at hr2
                    obtain ⟨rfl, -⟩ := hr2
                    exact hc.2.2.2.2.2.1 rfl
                  · simp only [List.cons_append, List.nil_append,
                      List.cons.injEq, List.append_eq_nil] at hr2
                    obtain ⟨rfl, rfl, rfl, rfl⟩ := hr2
                    exact hc.2.2.1 (List.prefix_refl _)
                · exact hc.2.2.1 h2
              · -- p starts at position 3: p ++ suf = "." ++ lower r
                exfalso
                have h4 : ('w' :: 'w' :: 'w' :: []) ++ (p ++ suf) =
                    ('w' :: 'w' :: 'w' :: []) ++ (('.' :: []) ++ pyLower r) := by
                  rw [← List.append_assoc]
                  exact hsum
                have hsum2 : p ++ suf = '.' :: pyLower r :=
                  List.append_cancel_left h4
                rcases p with _ | ⟨a, p2⟩
                · exact hc.1 rfl
                · simp only [List.cons_append, List.cons.injEq] at hsum2
                  obtain ⟨rfl, -⟩ := hsum2
                  exact hc.2.1 rfl
              · -- pre is the whole pattern: p is an infix of lower r
                have h4 : wwwPat ++ (p ++ suf) = wwwPat ++ pyLower r := by
                  rw [← List.append_assoc]
                  exact hsum
                have h5 : p <:+: pyLower r :=
                  ⟨[], suf, by simpa using List.append_cancel_left h4⟩
                exact ih r hr_len h5
            · obtain ⟨pre', rfl⟩ := h1
              have h4 : wwwPat ++ (pre' ++ (p ++ suf)) = wwwPat ++ pyLower r := by
                simp only [List.append_assoc] at hsum ⊢
                exact hsum
              have h5 : p <:+: pyLower r := ⟨pre', suf, by
                rw [List.append_assoc]
                exact List.append_cancel_left h4⟩
              exact ih r hr_len h5
          · rw [removeWWW_cons_not c t hwww]
            rcases List.infix_cons_iff.mp hp with h1 | h1
            · have hres := (prefix_lower_removeWWW p hc (c :: t).length (c :: t) p
                (Nat.le_refl _) (List.suffix_refl p) h1).isInfix
              rw [removeWWW_cons_not c t hwww] at hres
              exact hres
            · have hres := ih t (by
                simp only [List.length_cons] at hs
                omega) h1
              show p <:+: pyLower (c :: removeWWW t)
              exact List.infix_cons_iff.mpr (Or.inr hres)

/-- The claim's notion of a site-root URL: the URL is exactly its own
scheme and hostname glued with `://`, with no path or query. -/
def isSiteRoot (u : Str) : Prop := u = rootUrl u

theorem isSiteRoot_rootUrl (u : Str) (hu : ("http").toList <+: u) :
    isSiteRoot (rootUrl u) := by
  unfold isSiteRoot
  conv_rhs => rw [rootUrl]
  rw [pyUrlparse_rootUrl u hu]
  rfl

theorem hostnameOf_rootUrl (u : Str) (hu : ("http").toList <+: u) :
    hostnameOf (rootUrl u) = (pyUrlparse u).2 := by
  unfold hostnameOf
  rw [pyUrlparse_rootUrl u hu]

theorem excluded_entries_clean : ∀ e ∈ EXCLUDED_DOMAINS, cleanEntry e := by
  simp only [cleanEntry]
  decide

/-- `is_excluded_domain` is stable under `replace("www.", "")`: stripping
`www.` occurrences cannot hide an exclusion-list entry, because no entry
overlaps the pattern. -/
theorem excluded_transfer (d : Str) (h : is_excluded_domain d = true) :
    is_excluded_domain (removeWWW d) = true := by
  unfold is_excluded_domain at h ⊢
  rw [List.any_eq_true] at h ⊢
  obtain ⟨e, he, hsub⟩ := h
  refine ⟨e, he, ?_⟩
  have hinf : e <:+: pyLower d := of_decide_eq_true hsub
  exact decide_eq_true
    (infix_lower_removeWWW e (excluded_entries_clean e he) d.length d
      (Nat.le_refl _) hinf)

/-- The shape of every result the providers keep: an `http`-prefixed URL
with a non-excluded hostname, reduced to `scheme://netloc`. -/
def resultOk (r : SearchResult) : Prop :=
  ∃ u, ("http").toList <+: u ∧ is_excluded_domain (pyUrlparse u).2 = false ∧
    r.href = rootUrl u

theorem resultOk_siteRoot (r : SearchResult) (h : resultOk r) :
    isSiteRoot r.href := by
  obtain ⟨u, hu, -, hr⟩ := h
  rw [hr]
  exact isSiteRoot_rootUrl u hu

theorem resultOk_notExcluded (r : SearchResult) (h : resultOk r) :
    is_excluded_domain (hostnameOf r.href) = false := by
  obtain ⟨u, hu, hex, hr⟩ := h
  rw [hr, hostnameOf_rootUrl u hu]
  exact hex

theorem processItems_ok (m : Nat) :
    ∀ (items : List (Option RawItem)) (acc : List SearchResult)
      (r : SearchResult),
      r ∈ processItems m items acc → r ∈ acc ∨ resultOk r := by
  intro items
  induction items with
  | nil => intro acc r hr; exact Or.inl hr
  | cons o rest ih =>
      intro acc r hr
      cases o with
      | none =>
          simp only [processItems] at hr
          by_cases hlen : m ≤ acc.length
          · rw [if_pos hlen] at hr
            exact Or.inl hr
          · rw [if_neg hlen] at hr
            exact ih acc r hr
      | some item =>
          simp only [processItems] at hr
          by_cases hcond : item.href ≠ [] ∧ ("http").toList <+: item.href ∧
              ¬ is_excluded_domain (pyUrlparse item.href).2 = true
          · rw [if_pos hcond] at hr
            have hok : ∀ x ∈ acc ++
                [(⟨rootUrl item.href, item.title⟩ : SearchResult)],
                x ∈ acc ∨ resultOk x := by
              intro x hx
              rcases List.mem_append.mp hx with h2 | h2
              · exact Or.inl h2
              · right
                have heq := List.mem_singleton.mp h2
                exact ⟨item.href, hcond.2.1, by simpa using hcond.2.2,
                  by rw [heq]⟩
            by_cases hlen : m ≤ (acc ++
                [(⟨rootUrl item.href, item.title⟩ : SearchResult)]).length
            · rw [if_pos hlen] at hr
              exact hok r hr
            · rw [if_neg hlen] at hr
              rcases ih _ r hr with h | h
              · exact hok r h
              · exact Or.inr h
          · rw [if_neg hcond] at hr
            by_cases hlen : m ≤ acc.length
            · rw [if_pos hlen] at hr
              exact Or.inl hr
            · rw [if_neg hlen] at hr
              exact ih acc r hr

theorem searxng_ok (m : Nat) :
    ∀ (instances : List (Option (List RawItem))) (r : SearchResult),
      r ∈ search_with_searxng instances m → resultOk r := by
  intro instances
  induction instances with
  | nil => intro r hr; simp [search_with_searxng] at hr
  | cons o rest ih =>
      intro r hr
      cases o with
      | none =>
          simp only [search_with_searxng] at hr
          exact ih r hr
      | some items =>
          simp only [search_with_searxng] at hr
          by_cases hne : processItems m (items.map some) [] ≠ []
          · rw [if_pos hne] at hr
            rcases processItems_ok m (items.map some) [] r hr with h | h
            · simp at h
            · exact h
          · rw [if_neg hne] at hr
            exact ih r hr

theorem startpage_ok (resp : Option (List (Option RawItem))) (m : Nat)
    (r : SearchResult) (hr : r ∈ search_with_startpage resp m) : resultOk r := by
  cases resp with
  | none => simp [search_with_startpage] at hr
  | some items =>
      rcases processItems_ok m items [] r hr with h | h
      · simp at h
      · exact h

theorem ddg_ok (resp : Option (List (Option RawItem))) (m : Nat)
    (r : SearchResult) (hr : r ∈ search_with_duckduckgo_lite resp m) :
    resultOk r := by
  cases resp with
  | none => simp [search_with_duckduckgo_lite] at hr
  | some rows =>
      rcases processItems_ok m rows [] r hr with h | h
      · simp at h
      · exact h

theorem playwrightScan_ok (m : Nat) :
    ∀ (anchors : List RawItem) (seen : List Str) (acc : List SearchResult)
      (r : SearchResult),
      r ∈ playwrightScan m anchors seen acc → r ∈ acc ∨ resultOk r := by
  intro anchors
  induction anchors with
  | nil => intro seen acc r hr; exact Or.inl hr
  | cons a rest ih =>
      intro seen acc r hr
      simp only [playwrightScan] at hr
      by_cases hhttp : ("http").toList <+: stripGoogleWrap a.href
      · rw [if_pos hhttp] at hr
        by_cases hskip :
            is_excluded_domain (removeWWW (pyUrlparse (stripGoogleWrap a.href)).2) = true ∨
            removeWWW (pyUrlparse (stripGoogleWrap a.href)).2 ∈ seen
        · rw [if_pos hskip] at hr
          exact ih seen acc r hr
        · rw [if_neg hskip] at hr
          have hexc : is_excluded_domain (pyUrlparse (stripGoogleWrap a.href)).2 = false := by
            cases hb : is_excluded_domain (pyUrlparse (stripGoogleWrap a.href)).2 with
            | false => rfl
            | true => exact absurd (Or.inl (excluded_transfer _ hb)) hskip
          have hok : ∀ x ∈ acc ++
              [(⟨rootUrl (stripGoogleWrap a.href),
                 if a.title = [] then removeWWW (pyUrlparse (stripGoogleWrap a.href)).2
                 else a.title⟩ : SearchResult)],
              x ∈ acc ∨ resultOk x := by
            intro x hx
            rcases List.mem_append.mp hx with h2 | h2
            · exact Or.inl h2
            · right
              have heq := List.mem_singleton.mp h2
              exact ⟨stripGoogleWrap a.href, hhttp, hexc, by rw [heq]⟩
          by_cases hfoc :
              isSubstr ((".edu").toList) (removeWWW (pyUrlparse (stripGoogleWrap a.href)).2) = true ∨
              isSubstr ((".ac.in").toList) (removeWWW (pyUrlparse (stripGoogleWrap a.href)).2) = true ∨
              isSubstr (("college").toList) (removeWWW (pyUrlparse (stripGoogleWrap a.href)).2) = true
          · rw [if_pos hfoc] at hr
            by_cases hlen : m ≤ (acc ++
                [(⟨rootUrl (stripGoogleWrap a.href),
                   if a.title = [] then removeWWW (pyUrlparse (stripGoogleWrap a.href)).2
                   else a.title⟩ : SearchResult)]).length
            · rw [if_pos hlen] at hr
              exact hok r hr
            · rw [if_neg hlen] at hr
              rcases ih _ _ r hr with h | h
              · exact hok r h
              · exact Or.inr h
          · rw [if_neg hfoc] at hr
            exact ih seen acc r hr
      · rw [if_neg hhttp] at hr
        exact ih seen acc r hr

theorem playwright_ok (page : Option (List RawItem)) (m : Nat)
    (r : SearchResult) (hr : r ∈ search_with_playwright_google page m) :
    resultOk r := by
  cases page with
  | none => simp [search_with_playwright_google] at hr
  | some anchors =>
      rcases playwrightScan_ok m anchors [] [] r hr with h | h
      · simp at h
      · exact h

theorem chainResults_ok (pd : ProviderData) (m : Nat) (r : SearchResult)
    (hr : r ∈ chainResults pd m) : resultOk r := by
  simp only [chainResults] at hr
  by_cases h1 : search_with_searxng pd.searxng (m * 2) ≠ []
  · rw [if_pos h1] at hr
    exact searxng_ok (m * 2) pd.searxng r hr
  · rw [if_neg h1] at hr
    by_cases h2 : search_with_startpage pd.startpage (m * 2) ≠ []
    · rw [if_pos h2] at hr
      exact startpage_ok pd.startpage (m * 2) r hr
    · rw [if_neg h2] at hr
      by_cases h3 : search_with_duckduckgo_lite pd.ddg (m * 2) ≠ []
      · rw [if_pos h3] at hr
        exact ddg_ok pd.ddg (m * 2) r hr
      · rw [if_neg h3] at hr
        exact playwright_ok pd.playwright m r hr

theorem mem_pyInsert (le : α → α → Bool) (x y : α) :
    ∀ l, y ∈ pyInsert le x l → y = x ∨ y ∈ l := by
  intro l
  induction l with
  | nil =>
      intro h
      simp only [pyInsert] at h
      exact Or.inl (List.mem_singleton.mp h)
  | cons z zs ih =>
      intro h
      simp only [pyInsert] at h
      by_cases hle : le x z = true
      · rw [if_pos hle] at h
        rcases List.mem_cons.mp h with h1 | h1
        · exact Or.inl h1
        · exact Or.inr h1
      · rw [if_neg hle] at h
        rcases List.mem_cons.mp h with h1 | h1
        · exact Or.inr (by rw [h1]; exact List.mem_cons_self z zs)
        · rcases ih h1 with h2 | h2
          · exact Or.inl h2
          · exact Or.inr (List.mem_cons_of_mem z h2)

theorem mem_pySorted (le : α → α → Bool) :
    ∀ (l : List α) (y : α), y ∈ pySorted le l → y ∈ l := by
  intro l
  induction l with
  | nil => intro y h; simp [pySorted] at h
  | cons x xs ih =>
      intro y h
      simp only [pySorted] at h
      rcases mem_pyInsert le x y _ h with h1 | h1
      · rw [h1]; exact List.mem_cons_self x xs
      · exact List.mem_cons_of_mem x (ih y h1)

theorem webCandidateLoop_mem (college_name : Str) (m : Nat) :
    ∀ (results : List SearchResult) (seen : List Str)
      (cands : List Candidate) (c : Candidate),
      c ∈ webCandidateLoop college_name m results seen cands →
      c ∈ cands ∨ ∃ r ∈ results, c.url = r.href := by
  intro results
  induction results with
  | nil => intro seen cands c hc; exact Or.inl hc
  | cons r rest ih =>
      intro seen cands c hc
      have step : ∀ (cands' : List Candidate),
          (c ∈ cands' ∨ ∃ r2 ∈ rest, c.url = r2.href) →
          c ∈ cands' ∨ ∃ r2 ∈ r :: rest, c.url = r2.href := by
        intro cands' h
        rcases h with h | ⟨r2, hr2, he⟩
        · exact Or.inl h
        · exact Or.inr ⟨r2, List.mem_cons_of_mem r hr2, he⟩
      simp only [webCandidateLoop] at hc
      by_cases h1 : r.href = []
      · rw [if_pos h1] at hc
        exact step cands (ih _ _ c hc)
      · rw [if_neg h1] at hc
        by_cases h2 : pyLower (pyUrlparse r.href).2 = []
        · rw [if_pos h2] at hc
          exact step cands (ih _ _ c hc)
        · rw [if_neg h2] at hc
          by_cases h3 : baseDomain (pyLower (pyUrlparse r.href).2) ∈ seen
          · rw [if_pos h3] at hc
            exact step cands (ih _ _ c hc)
          · rw [if_neg h3] at hc
            have hnew : ∀ x ∈ cands ++
                [(⟨(if r.title ≠ [] then r.title
                    else college_name ++ (' ' :: '-' :: ' ' :: []) ++
                      pyLower (pyUrlparse r.href).2),
                   r.href, get_domain_confidence r.href college_name,
                   [], [], 0⟩ : Candidate)],
                x ∈ cands ∨ ∃ r2 ∈ r :: rest, x.url = r2.href := by
              intro x hx
              rcases List.mem_append.mp hx with h4 | h4
              · exact Or.inl h4
              · right
                have heq := List.mem_singleton.mp h4
                exact ⟨r, List.mem_cons_self r rest, by rw [heq]⟩
            by_cases h5 : m ≤ (cands ++
                [(⟨(if r.title ≠ [] then r.title
                    else college_name ++ (' ' :: '-' :: ' ' :: []) ++
                      pyLower (pyUrlparse r.href).2),
                   r.href, get_domain_confidence r.href college_name,
                   [], [], 0⟩ : Candidate)]).length
            · rw [if_pos h5] at hc
              exact hnew c hc
            · rw [if_neg h5] at hc
              rcases ih _ _ c hc with h6 | ⟨r2, hr2, he⟩
              · exact hnew c h6
              · exact Or.inr ⟨r2, List.mem_cons_of_mem r hr2, he⟩

theorem webCandidates_mem (results : List SearchResult) (college_name : Str)
    (m : Nat) (c : Candidate) (hc : c ∈ webCandidates results college_name m) :
    ∃ r ∈ results, c.url = r.href := by
  simp only [webCandidates] at hc
  have h1 := List.take_subset m _ hc
  have h2 := mem_pySorted _ _ c h1
  rcases webCandidateLoop_mem college_name m results [] [] c h2 with h | h
  · simp at h
  · exact h

/-- The web-search path of `search_college_website`: every candidate's
url is some kept provider result's href. -/
theorem webPath_resultOk (pd : ProviderData) (name' : Str) (m : Nat)
    (c : Candidate)
    (hc : c ∈ (if chainResults pd m = [] then []
               else webCandidates (chainResults pd m) name' m)) :
    ∃ r, resultOk r ∧ c.url = r.href := by
  by_cases h0 : chainResults pd m = []
  · rw [if_pos h0] at hc
    simp at hc
  · rw [if_neg h0] at hc
    obtain ⟨r, hr, he⟩ := webCandidates_mem _ _ _ c hc
    exact ⟨r, chainResults_ok pd m r hr, he⟩

theorem assocFind_mem (l : List (Str × α)) (k : Str) (v : α)
    (h : assocFind l k = some v) : ∃ kv ∈ l, kv.2 = v := by
  unfold assocFind at h
  obtain ⟨kv, hfind, hv⟩ := Option.map_eq_some'.mp h
  exact ⟨kv, List.mem_of_find?_eq_some hfind, hv⟩

theorem knownFuzzyMatches_url (known : Catalog) (qw : List Str) (nl : Str)
    (c : Candidate) (hc : c ∈ knownFuzzyMatches known qw nl) :
    ∃ kv ∈ known, c.url = kv.2.url := by
  unfold knownFuzzyMatches at hc
  rcases List.mem_flatMap.mp hc with ⟨kv, hkv, hin⟩
  refine ⟨kv, hkv, ?_⟩
  by_cases h1 : isSubstr nl kv.1 = true ∨ isSubstr kv.1 nl = true
  · rw [if_pos h1] at hin
    rw [List.mem_singleton.mp hin]
  · rw [if_neg h1] at hin
    by_cases h2 : 2 ≤ commonCount qw kv.1
    · rw [if_pos h2] at hin
      rw [List.mem_singleton.mp hin]
    · rw [if_neg h2] at hin
      simp at hin

theorem ugcScan_url (qw : List Str) (nl : Str) :
    ∀ (reg : Registry) (cm : Nat) (acc : List Candidate) (c : Candidate),
      c ∈ ugcScan qw nl reg cm acc → c ∈ acc ∨ c.url = [] := by
  intro reg
  induction reg with
  | nil => intro cm acc c hc; exact Or.inl hc
  | cons kv rest ih =>
      obtain ⟨key, info⟩ := kv
      intro cm acc c hc
      simp only [ugcScan] at hc
      by_cases h1 : 0 < registryScore qw nl key cm
      · rw [if_pos h1] at hc
        rcases ih _ _ c hc with h | h
        · rcases List.mem_append.mp h with h2 | h2
          · exact Or.inl h2
          · right
            rw [List.mem_singleton.mp h2]
        · exact Or.inr h
      · rw [if_neg h1] at hc
        exact ih _ _ c hc

/-- Every url on a candidate produced by `search_known_colleges` is
either empty (UGC-registry entries) or copied from the curated catalog. -/
theorem search_known_colleges_url (known : Catalog) (insts : Registry)
    (name : Str) (c : Candidate)
    (hc : c ∈ search_known_colleges known insts name) :
    c.url = [] ∨ ∃ kv ∈ known, c.url = kv.2.url := by
  simp only [search_known_colleges] at hc
  cases h1 : assocFind known (normName name) with
  | some info =>
      rw [h1] at hc
      right
      obtain ⟨kv, hkv, hkv2⟩ := assocFind_mem known _ info h1
      exact ⟨kv, hkv, by rw [List.mem_singleton.mp hc, hkv2]⟩
  | none =>
      rw [h1] at hc
      cases h2 : assocFind insts (normName name) with
      | some info =>
          rw [h2] at hc
          left
          rw [List.mem_singleton.mp hc]
      | none =>
          rw [h2] at hc
          by_cases h3 : knownFuzzyMatches known (queryWords (normName name))
              (normName name) ≠ []
          · rw [if_pos h3] at hc
            have h4 := mem_pySorted _ _ c (List.take_subset 5 _ hc)
            right
            exact knownFuzzyMatches_url known _ _ c h4
          · rw [if_neg h3] at hc
            by_cases h5 : ugcScan (queryWords (normName name)) (normName name)
                insts 0 [] ≠ []
            · rw [if_pos h5] at hc
              have h4 := mem_pySorted _ _ c (List.take_subset 5 _ hc)
              rcases ugcScan_url _ _ insts 0 [] c h4 with h | h
              · simp at h
              · exact Or.inl h
            · rw [if_neg h5] at hc
              simp at hc

theorem aggregatorQueryLoop_siteRoot (ddg searx : Str → List SearchResult)
    (intent : Str) (hddg : ∀ q r, r ∈ ddg q → isSiteRoot r.href)
    (hsearx : ∀ q r, r ∈ searx q → isSiteRoot r.href) :
    ∀ (qs : List Str) (u : Str),
      aggregatorQueryLoop ddg searx intent qs = some u → isSiteRoot u := by
  intro qs
  induction qs with
  | nil => intro u h; simp [aggregatorQueryLoop] at h
  | cons q rest ih =>
      intro u h
      simp only [aggregatorQueryLoop] at h
      cases hf : findInResults intent (if ddg q = [] then searx q else ddg q) with
      | none =>
          rw [hf] at h
          exact ih u h
      | some v =>
          rw [hf] at h
          have hv : v = u := Option.some.inj h
          subst hv
          unfold findInResults at hf
          obtain ⟨res, hfind, hhref⟩ := Option.map_eq_some'.mp hf
          have hmem := List.mem_of_find?_eq_some hfind
          by_cases hd : ddg q = []
          · rw [if_pos hd] at hmem
            exact hhref ▸ hsearx q res hmem
          · rw [if_neg hd] at hmem
            exact hhref ▸ hddg q res hmem

/-! ## Claim C9

Each of the four search providers stores `f"{parsed.scheme}://{parsed.netloc}"`
in place of the found result URL (search.py lines 287-290, 333-336,
371-374, 438-441), so every provider result — and hence every web-search
candidate url of `search_college_website` and every URL the aggregator
fallback's keyword check can pick — is a site-root URL with no path or
query. -/

/-- **C9**: every result URL returned by the four search providers is
`scheme://netloc` only; consequently, whenever `search_college_website`
takes the web-search path (forced, or because no curated/registry
candidate carries a url), every candidate url it returns is a site-root
URL, and the URL found by the aggregator fallback's keyword scan is a
site-root URL whenever its two providers only produce site roots. -/
theorem C9_provider_urls_site_roots :
    (∀ (instances : List (Option (List RawItem))) (m : Nat) (r : SearchResult),
        r ∈ search_with_searxng instances m → isSiteRoot r.href) ∧
    (∀ (resp : Option (List (Option RawItem))) (m : Nat) (r : SearchResult),
        r ∈ search_with_startpage resp m → isSiteRoot r.href) ∧
    (∀ (resp : Option (List (Option RawItem))) (m : Nat) (r : SearchResult),
        r ∈ search_with_duckduckgo_lite resp m → isSiteRoot r.href) ∧
    (∀ (page : Option (List RawItem)) (m : Nat) (r : SearchResult),
        r ∈ search_with_playwright_google page m → isSiteRoot r.href) ∧
    (∀ (known : Catalog) (insts : Registry) (pd : ProviderData) (name : Str)
        (m : Nat) (force : Bool),
        (force = true ∨ ∀ k ∈ search_known_colleges known insts name, k.url = []) →
        ∀ c ∈ search_college_website known insts pd name m force,
          isSiteRoot c.url) ∧
    (∀ (ddg searx : Str → List SearchResult) (name intent u : Str),
        (∀ q r, r ∈ ddg q → isSiteRoot r.href) →
        (∀ q r, r ∈ searx q → isSiteRoot r.href) →
        findAggregatorUrl ddg searx name intent = some u → isSiteRoot u) := by
  refine ⟨?_, ?_, ?_, ?_, ?_, ?_⟩
  · intro instances m r hr
    exact resultOk_siteRoot r (searxng_ok m instances r hr)
  · intro resp m r hr
    exact resultOk_siteRoot r (startpage_ok resp m r hr)
  · intro resp m r hr
    exact resultOk_siteRoot r (ddg_ok resp m r hr)
  · intro page m r hr
    exact resultOk_siteRoot r (playwright_ok page m r hr)
  · intro known insts pd name m force hpre c hc
    simp only [search_college_website] at hc
    cases force with
    | true =>
        rw [if_pos rfl] at hc
        obtain ⟨r, hok, he⟩ := webPath_resultOk pd _ m c hc
        rw [he]
        exact resultOk_siteRoot r hok
    | false =>
        rw [if_neg (by decide)] at hc
        have hall : ∀ k ∈ search_known_colleges known insts name, k.url = [] := by
          rcases hpre with hf | hall
          · exact absurd hf (by decide)
          · exact hall
        have hany : ((search_known_colleges known insts name).any
            (fun r => r.url ≠ [])) = false := by
          rw [List.any_eq_false]
          intro x hx
          simp [hall x hx]
        rw [if_neg (by rw [hany]; decide)] at hc
        obtain ⟨r, hok, he⟩ := webPath_resultOk pd _ m c hc
        rw [he]
        exact resultOk_siteRoot r hok
  · intro ddg searx name intent u hddg hsearx hfind
    exact aggregatorQueryLoop_siteRoot ddg searx intent hddg hsearx _ u hfind

/-- Witness for C9: on a concrete SearXNG response with one anchor, the
provider's result URL is a site root. -/
theorem C9_provider_urls_site_roots_witness :
    isSiteRoot (("http://a.edu").toList) := by
  exact C9_provider_urls_site_roots.1
    [some [⟨("http://a.edu").toList, ("t").toList⟩]] 5
    ⟨("http://a.edu").toList, ("t").toList⟩ (by decide)

/-! ## Claim C4

The providers filter results through `is_excluded_domain`
(search.py lines 287-290, 333-338, 371-376, 429-433), so no web-search
candidate ever carries an excluded hostname.  The curated-catalog paths
(lines 140-190, 491-500), however, copy `info["url"]` from
`colleges.json` without any exclusion check: a catalog entry whose
stored URL is an aggregator page flows straight through `resolve`.  The
claim therefore only holds with a cleanliness assumption on the catalog
data. -/

/-- A curated catalog whose stored URL for one college is an aggregator
page; nothing in the code checks catalog URLs against the exclusion
list. -/
def c4Known : Catalog :=
  [(("shiksha college of arts").toList,
    ⟨("Shiksha College of Arts").toList,
     ("https://www.shiksha.com/college/arts").toList⟩)]

/-- Provider oracles that are never consulted on the catalog path. -/
def c4pd : ProviderData := ⟨[], none, none, none⟩

/-- A curated catalog with a clean (non-excluded) official URL. -/
def c4CleanKnown : Catalog :=
  [(("delta institute").toList,
    ⟨("Delta Institute").toList, ("https://delta.ac.in").toList⟩)]

/-- **C4 counterexample**: with a curated-catalog entry whose stored URL
is a `shiksha.com` page, `resolve` returns that candidate unchanged, and
its url's hostname matches the exclusion list — the claimed invariant
fails on the curated-catalog path. -/
theorem C4_counterexample_catalog_excluded :
    search_college_website c4Known [] c4pd
        (("Shiksha College of Arts").toList) 5 false =
      [⟨("Shiksha College of Arts").toList,
        ("https://www.shiksha.com/college/arts").toList,
        ("high").toList, ("database").toList, [], 0⟩] ∧
    is_excluded_domain
      (hostnameOf (("https://www.shiksha.com/college/arts").toList)) = true := by
  constructor
  · decide
  · decide

/-- **C4** (amended): provided every curated-catalog URL has a
non-excluded hostname, no candidate returned by `resolve` — on the
catalog path or the web-search path — has a hostname containing an entry
of the static exclusion list. -/
theorem C4_no_excluded_candidates (known : Catalog) (insts : Registry)
    (pd : ProviderData) (name : Str) (m : Nat) (force : Bool)
    (hcat : ∀ kv ∈ known, is_excluded_domain (hostnameOf kv.2.url) = false) :
    ∀ c ∈ search_college_website known insts pd name m force,
      is_excluded_domain (hostnameOf c.url) = false := by
  intro c hc
  simp only [search_college_website] at hc
  cases force with
  | true =>
      rw [if_pos rfl] at hc
      obtain ⟨r, hok, he⟩ := webPath_resultOk pd _ m c hc
      rw [he]
      exact resultOk_notExcluded r hok
  | false =>
      rw [if_neg (by decide)] at hc
      by_cases hany : ((search_known_colleges known insts name).any
          (fun r => r.url ≠ [])) = true
      · rw [if_pos hany] at hc
        have h1 : c ∈ (search_known_colleges known insts name).filter
            (fun r => r.url ≠ []) := List.take_subset m _ hc
        have h2 := List.mem_of_mem_filter h1
        rcases search_known_colleges_url known insts name c h2 with h | ⟨kv, hkv, hurl⟩
        · rw [h]
          decide
        · rw [hurl]
          exact hcat kv hkv
      · rw [if_neg hany] at hc
        obtain ⟨r, hok, he⟩ := webPath_resultOk pd _ m c hc
        rw [he]
        exact resultOk_notExcluded r hok

/-- Witness for C4: with a clean one-entry catalog the theorem applies,
and the returned official URL indeed has a non-excluded hostname. -/
theorem C4_no_excluded_candidates_witness :
    is_excluded_domain (hostnameOf (("https://delta.ac.in").toList)) = false := by
  have h := C4_no_excluded_candidates c4CleanKnown [] c4pd
    (("delta institute").toList) 5 false (by decide)
  exact h ⟨("Delta Institute").toList, ("https://delta.ac.in").toList,
    ("high").toList, ("database").toList, [], 0⟩ (by decide)

/-! ## Claim C1

`search_known_colleges` sorts its fuzzy curated-catalog matches with
`sorted(matches, key=lambda x: x["confidence"], reverse=True)`
(search.py line 190).  The key is the confidence *string*, and in
descending lexicographic order `"medium" > "low" > "high"`, so the sort
puts medium-confidence entries before high-confidence ones — the
opposite of the intended best-first order that the web-search path
implements with an explicit rank map (lines 577-579). -/

/-- A curated catalog on which the fuzzy path mixes confidences:
`delta institute` matches the query by substring (high), and
`management institute pune` shares two significant tokens (medium). -/
def c1Known : Catalog :=
  [(("delta institute").toList,
    ⟨("Delta Institute").toList, ("https://delta.ac.in").toList⟩),
   (("management institute pune").toList,
    ⟨("Management Institute Pune").toList, ("https://mip.edu.in").toList⟩)]

/-- C1 evaluation at the failing input: `resolve` (with the curated
catalog above, an empty registry and no provider traffic) returns the
medium-confidence candidate *before* the high-confidence one, violating
the claimed ordering invariant on the fuzzy curated-catalog path. -/
theorem C1_bug_medium_before_high :
    (search_college_website c1Known [] ⟨[], none, none, none⟩
      (("Delta Institute of Management").toList) 5 false).map
      Candidate.confidence = [("medium").toList, ("high").toList] := by
  decide

/-! ## Claim C5 -/

/-- C5: for every name that, after lowercasing and trimming, exactly
equals a curated-catalog key (whose stored URL is nonempty), `resolve`
with `force_web_search = false` returns exactly one candidate with
confidence `high` and the catalog's URL.  The provider data `pd` is
universally quantified and does not appear in the result, so no
web-search provider can influence the outcome. -/
theorem C5_exact_catalog_hit (known : Catalog) (insts : Registry)
    (pd : ProviderData) (college_name : Str) (max_results : Nat)
    (info : CollegeInfo)
    (hfind : assocFind known (normName college_name) = some info)
    (hurl : info.url ≠ []) (hmax : 0 < max_results) :
    search_college_website known insts pd college_name max_results false =
      [⟨info.name, info.url, ("high").toList, ("database").toList, [], 0⟩] := by
  have hknown : search_known_colleges known insts college_name =
      [⟨info.name, info.url, ("high").toList, ("database").toList, [], 0⟩] := by
    unfold search_known_colleges
    dsimp only
    rw [hfind]
  unfold search_college_website
  rw [hknown]
  dsimp only
  have htake : List.take max_results
      [(⟨info.name, info.url, ("high").toList, ("database").toList, [], 0⟩ :
        Candidate)] =
      [⟨info.name, info.url, ("high").toList, ("database").toList, [], 0⟩] :=
    List.take_of_length_le (by simpa using hmax)
  simp [hurl, htake]
  omega

/-- Witness fixture for C5: a one-entry curated catalog. -/
def c5Known : Catalog :=
  [(("iit bombay").toList,
    ⟨("IIT Bombay").toList, ("https://www.iitb.ac.in").toList⟩)]

/-- Witness for C5 at the name `" IIT Bombay "` (exercising trimming and
lowercasing) with nonempty provider data that must be ignored. -/
theorem C5_exact_catalog_hit_witness :
    search_college_website c5Known [] ⟨[some [⟨("https://wrong.ac.in").toList,
      ("Wrong").toList⟩]], none, none, none⟩ ((" IIT Bombay ").toList) 5 false =
      [⟨("IIT Bombay").toList, ("https://www.iitb.ac.in").toList,
        ("high").toList, ("database").toList, [], 0⟩] :=
  C5_exact_catalog_hit c5Known [] _ ((" IIT Bombay ").toList) 5
    ⟨("IIT Bombay").toList, ("https://www.iitb.ac.in").toList⟩
    (by decide) (by decide) (by decide)

/-! ## Claim C3: lemmas about `pyStrip` -/

theorem dropWhile_head_false (p : Char → Bool) (s : Str) (hd : Char) (tl : Str)
    (h : s.dropWhile p = hd :: tl) : p hd = false := by
  induction s with
  | nil => cases h
  | cons c cs ih =>
      rw [List.dropWhile_cons] at h
      by_cases hc : p c = true
      · exact ih (by rwa [if_pos hc] at h)
      · rw [if_neg hc] at h
        cases h
        simpa using hc

theorem dropWhile_eq_self_of_head (p : Char → Bool) (s : Str)
    (h : ∀ hd tl, s = hd :: tl → p hd = false) : s.dropWhile p = s := by
  cases s with
  | nil => rfl
  | cons c cs =>
      rw [List.dropWhile_cons, if_neg]
      simp [h c cs rfl]

theorem rdropWhile_eq_self_of_getLast? (p : Char → Bool) (s : Str) (c : Char)
    (hlast : s.getLast? = some c) (hc : p c = false) :
    List.rdropWhile p s = s := by
  unfold List.rdropWhile
  rw [dropWhile_eq_self_of_head p s.reverse, List.reverse_reverse]
  intro hd tl hrev
  have : s.reverse.head? = some hd := by rw [hrev]; rfl
  rw [List.head?_reverse] at this
  rw [hlast] at this
  cases this
  exact hc

theorem pyStrip_head_false (s : Str) (hd : Char) (tl : Str)
    (h : pyStrip s = hd :: tl) : isPySpace hd = false := by
  unfold pyStrip at h
  have hpre := List.rdropWhile_prefix isPySpace (s.dropWhile isPySpace)
  rw [h] at hpre
  obtain ⟨r, hr⟩ := hpre
  exact dropWhile_head_false isPySpace s hd (tl ++ r) (by rw [← hr]; simp)

theorem pyStrip_getLast?_false (s : Str) (c : Char)
    (h : (pyStrip s).getLast? = some c) : isPySpace c = false := by
  unfold pyStrip at h
  have hne : List.rdropWhile isPySpace (s.dropWhile isPySpace) ≠ [] := by
    intro he
    rw [he] at h
    cases h
  have := List.rdropWhile_last_not isPySpace (s.dropWhile isPySpace) hne
  rw [List.getLast?_eq_getLast _ hne] at h
  cases h
  simpa using this

theorem pyStrip_eq_self (s : Str)
    (hhead : ∀ hd tl, s = hd :: tl → isPySpace hd = false)
    (hlast : ∀ c, s.getLast? = some c → isPySpace c = false) :
    pyStrip s = s := by
  unfold pyStrip
  rw [dropWhile_eq_self_of_head _ _ hhead]
  cases hs : s.getLast? with
  | none =>
      rw [List.getLast?_eq_none_iff] at hs
      rw [hs]
      rfl
  | some c => exact rdropWhile_eq_self_of_getLast? _ _ c hs (hlast c hs)

theorem pyStrip_idem (s : Str) : pyStrip (pyStrip s) = pyStrip s := by
  apply pyStrip_eq_self
  · intro hd tl h
    exact pyStrip_head_false s hd tl h
  · intro c h
    exact pyStrip_getLast?_false s c h

theorem pyStrip_sublist (s : Str) : (pyStrip s).Sublist s := by
  unfold pyStrip
  exact ((List.rdropWhile_prefix _ _).sublist.trans
    (List.dropWhile_suffix _).sublist)

/-! ## Claim C3: lemmas about `pySplitlines` and `joinLines` -/

theorem splitlinesGo_nil (acc : Str) : splitlinesGo acc [] = [acc.reverse] := by
  rw [splitlinesGo]

theorem splitlinesGo_cons_other (acc : Str) (c : Char) (rest : Str)
    (hc : isLineBreak c = false) :
    splitlinesGo acc (c :: rest) = splitlinesGo (c :: acc) rest := by
  rw [splitlinesGo]
  simp [hc]

theorem splitlinesGo_cons_break (acc : Str) (c : Char) (rest : Str)
    (hc : isLineBreak c = true) :
    splitlinesGo acc (c :: rest) =
      acc.reverse ::
        (if (if c = '\r' ∧ rest.head? = some '\n' then rest.tail else rest) = []
         then []
         else splitlinesGo []
           (if c = '\r' ∧ rest.head? = some '\n' then rest.tail else rest)) := by
  rw [splitlinesGo]
  simp [hc]

theorem splitlinesGo_cons_nl (acc : Str) (rest : Str) :
    splitlinesGo acc ('\n' :: rest) =
      acc.reverse :: (if rest = [] then [] else splitlinesGo [] rest) := by
  rw [splitlinesGo_cons_break acc '\n' rest (by decide)]
  have hne : ¬ ('\n' = '\r' ∧ rest.head? = some '\n') := by
    rintro ⟨h, -⟩
    cases h
  rw [if_neg hne]

theorem splitlinesGo_append_nobreak (l : Str)
    (hl : ∀ c ∈ l, isLineBreak c = false) :
    ∀ acc r, splitlinesGo acc (l ++ r) = splitlinesGo (l.reverse ++ acc) r := by
  induction l with
  | nil => intro acc r; simp
  | cons c cs ih =>
      intro acc r
      rw [List.cons_append,
        splitlinesGo_cons_other acc c (cs ++ r) (hl c (List.mem_cons_self _ _)),
        ih (fun x hx => hl x (List.mem_cons_of_mem _ hx))]
      simp

theorem pySplitlines_single (l : Str) (hne : l ≠ [])
    (hl : ∀ c ∈ l, isLineBreak c = false) : pySplitlines l = [l] := by
  unfold pySplitlines
  rw [if_neg hne]
  have h := splitlinesGo_append_nobreak l hl [] []
  rw [List.append_nil] at h
  rw [h, splitlinesGo_nil]
  simp

theorem joinLines_cons (l : Str) (ls : List Str) (h : ls ≠ []) :
    joinLines (l :: ls) = l ++ '\n' :: joinLines ls := by
  cases ls with
  | nil => exact absurd rfl h
  | cons l' t => rfl

theorem joinLines_ne_nil (ls : List Str) (h1 : ls ≠ [])
    (h2 : ∀ l ∈ ls, l ≠ []) : joinLines ls ≠ [] := by
  cases ls with
  | nil => exact absurd rfl h1
  | cons l t =>
      cases t with
      | nil => exact h2 l (List.mem_cons_self _ _)
      | cons l' t' => simp [joinLines]

theorem pySplitlines_joinLines (lines : List Str) (hne : lines ≠ [])
    (h : ∀ l ∈ lines, l ≠ [] ∧ ∀ c ∈ l, isLineBreak c = false) :
    pySplitlines (joinLines lines) = lines := by
  induction lines with
  | nil => exact absurd rfl hne
  | cons l ls ih =>
      cases ls with
      | nil =>
          show pySplitlines l = [l]
          exact pySplitlines_single l (h l (List.mem_cons_self _ _)).1
            (h l (List.mem_cons_self _ _)).2
      | cons l' t =>
          rw [joinLines_cons _ _ (by simp)]
          have hJ : joinLines (l' :: t) ≠ [] :=
            joinLines_ne_nil _ (by simp)
              (fun x hx => (h x (List.mem_cons_of_mem _ hx)).1)
          unfold pySplitlines
          rw [if_neg (by simp)]
          rw [splitlinesGo_append_nobreak l (h l (List.mem_cons_self _ _)).2
            [] ('\n' :: joinLines (l' :: t))]
          rw [splitlinesGo_cons_nl, if_neg hJ]
          simp only [List.append_nil, List.reverse_reverse]
          congr 1
          have hih := ih (by simp) (fun x hx => h x (List.mem_cons_of_mem _ hx))
          unfold pySplitlines at hih
          rwa [if_neg hJ] at hih

theorem splitlinesGo_mem_nobreak :
    ∀ n (s : Str), s.length ≤ n → ∀ acc, (∀ c ∈ acc, isLineBreak c = false) →
    ∀ l ∈ splitlinesGo acc s, ∀ c ∈ l, isLineBreak c = false := by
  intro n
  induction n with
  | zero =>
      intro s hs acc hacc l hl
      have : s = [] := by
        cases s with
        | nil => rfl
        | cons x xs => simp at hs
      subst this
      rw [splitlinesGo_nil] at hl
      rcases List.mem_singleton.mp hl with rfl
      intro c hc
      exact hacc c (List.mem_reverse.mp hc)
  | succ m ih =>
      intro s hs acc hacc l hl
      cases s with
      | nil =>
          rw [splitlinesGo_nil] at hl
          rcases List.mem_singleton.mp hl with rfl
          intro c hc
          exact hacc c (List.mem_reverse.mp hc)
      | cons x xs =>
          by_cases hx : isLineBreak x = true
          · rw [splitlinesGo_cons_break acc x xs hx] at hl
            rcases List.mem_cons.mp hl with rfl | hl2
            · intro c hc
              exact hacc c (List.mem_reverse.mp hc)
            · by_cases hrest : (if x = '\r' ∧ xs.head? = some '\n'
                  then xs.tail else xs) = []
              · rw [if_pos hrest] at hl2
                cases hl2
              · rw [if_neg hrest] at hl2
                refine ih _ ?_ [] (by simp) l hl2
                have hlen : (if x = '\r' ∧ xs.head? = some '\n'
                    then xs.tail else xs).length ≤ xs.length := by
                  split
                  · cases xs <;> simp
                  · exact Nat.le_refl _
                simp only [List.length_cons] at hs
                omega
          · rw [splitlinesGo_cons_other acc x xs (by simpa using hx)] at hl
            refine ih xs ?_ (x :: acc) ?_ l hl
            · simp only [List.length_cons] at hs
              omega
            · intro c hc
              rcases List.mem_cons.mp hc with rfl | hc2
              · simpa using hx
              · exact hacc c hc2

theorem pySplitlines_mem_nobreak (t : Str) (l : Str) (h : l ∈ pySplitlines t) :
    ∀ c ∈ l, isLineBreak c = false := by
  unfold pySplitlines at h
  by_cases ht : t = []
  · rw [if_pos ht] at h
    cases h
  · rw [if_neg ht] at h
    exact splitlinesGo_mem_nobreak t.length t (Nat.le_refl _) [] (by simp) l h

/-! ## Claim C3: lemmas about `filterLines` and `collapseNewlines` -/

/-- The invariant satisfied by every line produced by `filterLines`. -/
def goodLine (l : Str) : Prop :=
  pyStrip l = l ∧ 3 < l.length ∧ ∀ c ∈ l, isLineBreak c = false

theorem filterLines_mem (t : Str) (l : Str) (h : l ∈ filterLines t) :
    goodLine l := by
  unfold filterLines at h
  obtain ⟨raw, hraw, hif⟩ := List.mem_filterMap.mp h
  by_cases hlen : 3 < (pyStrip raw).length
  · rw [if_pos hlen] at hif
    cases hif
    refine ⟨pyStrip_idem raw, hlen, ?_⟩
    intro c hc
    exact pySplitlines_mem_nobreak t raw hraw c ((pyStrip_sublist raw).subset hc)
  · rw [if_neg hlen] at hif
    cases hif

theorem goodLine_ne_nil (l : Str) (h : goodLine l) : l ≠ [] := by
  intro hnil
  rw [hnil] at h
  exact absurd h.2.1 (by simp)

theorem filterLines_joinLines (lines : List Str)
    (h : ∀ l ∈ lines, goodLine l) :
    filterLines (joinLines lines) = lines := by
  cases hl : lines with
  | nil => rfl
  | cons l0 ls0 =>
      subst hl
      unfold filterLines
      rw [pySplitlines_joinLines (l0 :: ls0) (by simp)
        (fun x hx => ⟨goodLine_ne_nil x (h x hx), (h x hx).2.2⟩)]
      have : ∀ (ls : List Str), (∀ l ∈ ls, goodLine l) →
          ls.filterMap (fun line => if 3 < (pyStrip line).length
            then some (pyStrip line) else none) = ls := by
        intro ls
        induction ls with
        | nil => intro _; rfl
        | cons x xs ih =>
            intro hx
            have hgx := hx x (List.mem_cons_self _ _)
            have hfx : (if 3 < (pyStrip x).length then some (pyStrip x)
                else none) = some x := by
              rw [hgx.1, if_pos hgx.2.1]
            rw [List.filterMap_cons, hfx]
            dsimp only
            rw [ih (fun y hy => hx y (List.mem_cons_of_mem _ hy))]
      exact this _ h

theorem collapseGo_cons (k : Nat) (c : Char) (rest : Str) :
    collapseGo k (c :: rest) =
      if c = '\n' then collapseGo (k + 1) rest
      else List.replicate (min k 2) '\n' ++ c :: collapseGo 0 rest := by
  rw [collapseGo]

theorem collapseGo_nil (k : Nat) :
    collapseGo k [] = List.replicate (min k 2) '\n' := by
  rw [collapseGo]

theorem collapseGo_zero_cons (c : Char) (rest : Str) (hc : ¬ c = '\n') :
    collapseGo 0 (c :: rest) = c :: collapseGo 0 rest := by
  rw [collapseGo_cons, if_neg hc]
  simp

theorem collapseGo_zero_append (l : Str) (hl : '\n' ∉ l) :
    ∀ r, collapseGo 0 (l ++ r) = l ++ collapseGo 0 r := by
  induction l with
  | nil => intro r; simp
  | cons c cs ih =>
      intro r
      have hc : ¬ c = '\n' := by
        intro hh
        exact hl (hh ▸ List.mem_cons_self _ _)
      rw [List.cons_append, collapseGo_zero_cons _ _ hc,
        ih (fun hmem => hl (List.mem_cons_of_mem _ hmem))]
      rfl

theorem collapseGo_zero_nil : collapseGo 0 [] = [] := by
  rw [collapseGo_nil]
  simp

theorem collapseNewlines_joinLines (lines : List Str)
    (h : ∀ l ∈ lines, l ≠ [] ∧ '\n' ∉ l) :
    collapseNewlines (joinLines lines) = joinLines lines := by
  induction lines with
  | nil =>
      show collapseGo 0 [] = []
      exact collapseGo_zero_nil
  | cons l ls ih =>
      cases ls with
      | nil =>
          show collapseGo 0 l = l
          have := collapseGo_zero_append l (h l (List.mem_cons_self _ _)).2 []
          rw [List.append_nil] at this
          rw [this, collapseGo_zero_nil, List.append_nil]
      | cons l' t =>
          rw [joinLines_cons _ _ (by simp)]
          unfold collapseNewlines
          rw [collapseGo_zero_append l (h l (List.mem_cons_self _ _)).2]
          congr 1
          have hl' := h l' (List.mem_cons_of_mem _ (List.mem_cons_self _ _))
          obtain ⟨c, l'', hc⟩ : ∃ c l'', joinLines (l' :: t) = c :: l'' ∧ c ∈ l' := by
            obtain ⟨c, lt, rfl⟩ := List.exists_cons_of_ne_nil hl'.1
            cases t with
            | nil => exact ⟨c, lt, rfl, List.mem_cons_self _ _⟩
            | cons y ys =>
                rw [joinLines_cons _ _ (by simp), List.cons_append]
                exact ⟨c, lt ++ '\n' :: joinLines (y :: ys), rfl,
                  List.mem_cons_self _ _⟩
          obtain ⟨hJ, hcmem⟩ := hc
          have hcnl : ¬ c = '\n' := by
            intro hh
            exact hl'.2 (hh ▸ hcmem)
          have hih := ih (fun x hx => h x (List.mem_cons_of_mem _ hx))
          unfold collapseNewlines at hih
          rw [hJ] at hih ⊢
          rw [collapseGo_zero_cons _ _ hcnl] at hih
          have hl'' : collapseGo 0 l'' = l'' := by
            simpa using hih
          have s1 : collapseGo 0 ('\n' :: c :: l'') = collapseGo 1 (c :: l'') := by
            rw [collapseGo_cons, if_pos rfl]
          have s2 : collapseGo 1 (c :: l'') = '\n' :: c :: collapseGo 0 l'' := by
            rw [collapseGo_cons, if_neg hcnl]
            rfl
          rw [s1, s2, hl'']

/-! ## Claim C3: the extractor theorems -/

theorem getText_textNode (s : Str) : getText (Html.textNode s) = pyStrip s := by
  unfold getText strippedStrings
  by_cases h : pyStrip s = []
  · rw [if_pos h, h]
    rfl
  · rw [if_neg h]
    rfl

theorem goodLine_no_nl (l : Str) (h : goodLine l) : '\n' ∉ l := by
  intro hc
  have := h.2.2 '\n' hc
  simp [isLineBreak] at this

theorem joinLines_head? (l : Str) (ls : List Str) (hl : l ≠ []) :
    (joinLines (l :: ls)).head? = l.head? := by
  cases ls with
  | nil => rfl
  | cons l' t =>
      rw [joinLines_cons _ _ (by simp)]
      cases l with
      | nil => exact absurd rfl hl
      | cons c cs => rfl

theorem joinLines_getLast? (ls : List Str) :
    ∀ (hne : ls ≠ []), (∀ l ∈ ls, l ≠ []) →
    (joinLines ls).getLast? = (ls.getLast hne).getLast? := by
  induction ls with
  | nil => intro hne; exact absurd rfl hne
  | cons l t ih =>
      intro hne hmem
      cases t with
      | nil => rfl
      | cons l' t' =>
          have htne : l' :: t' ≠ [] := by simp
          have hmem' : ∀ x ∈ l' :: t', x ≠ [] :=
            fun x hx => hmem x (List.mem_cons_of_mem _ hx)
          have hJ : joinLines (l' :: t') ≠ [] := joinLines_ne_nil _ htne hmem'
          rw [joinLines_cons _ _ htne, List.getLast?_append]
          have h1 : ('\n' :: joinLines (l' :: t')).getLast? =
              (joinLines (l' :: t')).getLast? := by
            cases hc : joinLines (l' :: t') with
            | nil => exact absurd hc hJ
            | cons y ys => simp
          rw [h1, ih htne hmem']
          have hlast_ne : (l' :: t').getLast htne ≠ [] :=
            hmem' _ (List.getLast_mem htne)
          rw [List.getLast?_eq_getLast _ hlast_ne]
          rw [List.getLast_cons htne]
          rw [List.getLast?_eq_getLast _ hlast_ne]
          rfl

theorem pyStrip_joinLines (lines : List Str)
    (h : ∀ l ∈ lines, pyStrip l = l ∧ l ≠ []) :
    pyStrip (joinLines lines) = joinLines lines := by
  cases lines with
  | nil => rfl
  | cons l ls =>
      have hl := h l (List.mem_cons_self _ _)
      apply pyStrip_eq_self
      · intro hd tl heq
        have hh : (joinLines (l :: ls)).head? = some hd := by rw [heq]; rfl
        rw [joinLines_head? l ls hl.2] at hh
        obtain ⟨c0, l0, rfl⟩ := List.exists_cons_of_ne_nil hl.2
        cases hh
        exact pyStrip_head_false _ _ _ hl.1
      · intro c hc
        have hne : (l :: ls) ≠ [] := by simp
        rw [joinLines_getLast? (l :: ls) hne
          (fun x hx => (h x hx).2)] at hc
        have hmem := List.getLast_mem hne
        have hgl := h _ hmem
        rw [← hgl.1] at hc
        exact pyStrip_getLast?_false _ _ hc

/-- The filtered lines of the extractor, before joining and capping. -/
def extractLines (h : Html) : List Str := filterLines (getText h)

theorem extractLines_good (h : Html) : ∀ l ∈ extractLines h, goodLine l :=
  fun l hl => filterLines_mem (getText h) l hl

theorem extract_eq (h : Html) : extract_text_content h =
    if CONTENT_LIMIT < (joinLines (extractLines h)).length
    then (joinLines (extractLines h)).take CONTENT_LIMIT ++ ('.' :: '.' :: '.' :: [])
    else joinLines (extractLines h) := by
  unfold extract_text_content
  dsimp only
  rw [collapseNewlines_joinLines (filterLines (getText h))
    (fun l hl => ⟨goodLine_ne_nil l (filterLines_mem _ l hl),
      goodLine_no_nl l (filterLines_mem _ l hl)⟩)]
  rfl

theorem extract_length_le (h : Html) :
    (extract_text_content h).length ≤ CONTENT_LIMIT + 3 := by
  rw [extract_eq]
  split
  · simp only [List.length_append, List.length_take]
    have := Nat.min_le_left CONTENT_LIMIT (joinLines (extractLines h)).length
    simp only [List.length_cons, List.length_nil]
    omega
  · omega

theorem extract_eq_join_of_le (h : Html)
    (hle : (extract_text_content h).length ≤ CONTENT_LIMIT) :
    extract_text_content h = joinLines (extractLines h) := by
  rw [extract_eq] at hle ⊢
  by_cases hc : CONTENT_LIMIT < (joinLines (extractLines h)).length
  · rw [if_pos hc] at hle
    simp only [List.length_append, List.length_take, List.length_cons,
      List.length_nil] at hle
    have := Nat.min_le_right CONTENT_LIMIT (joinLines (extractLines h)).length
    have hmin : min CONTENT_LIMIT (joinLines (extractLines h)).length =
        CONTENT_LIMIT := Nat.min_eq_left (Nat.le_of_lt hc)
    omega
  · rw [if_neg hc]

theorem extract_idem_of_le (h : Html)
    (hle : (extract_text_content h).length ≤ CONTENT_LIMIT) :
    extract_text_content (Html.textNode (extract_text_content h)) =
      extract_text_content h := by
  have hout := extract_eq_join_of_le h hle
  have hg := extractLines_good h
  have hlines : extractLines (Html.textNode (extract_text_content h)) =
      extractLines h := by
    unfold extractLines
    rw [getText_textNode, hout,
      pyStrip_joinLines _ (fun l hl => ⟨(hg l hl).1, goodLine_ne_nil l (hg l hl)⟩)]
    exact filterLines_joinLines _ hg
  rw [extract_eq (Html.textNode (extract_text_content h)), hlines]
  rw [hout] at hle
  rw [if_neg (by omega), ← hout]

/-- C3 (amended): the content extractor is deterministic; its output
never exceeds `CONTENT_LIMIT + 3 = 12003` characters (the configured cap
plus the three-character `...` truncation marker); and it is idempotent
on every input whose output was not truncated (length at most
`CONTENT_LIMIT`).  When the cap is hit the output carries the marker
beyond the cap and idempotence can fail (see the counterexample). -/
theorem C3_extractor_deterministic_capped_idem :
    (∀ h₁ h₂ : Html, h₁ = h₂ →
      extract_text_content h₁ = extract_text_content h₂) ∧
    (∀ h : Html, (extract_text_content h).length ≤ CONTENT_LIMIT + 3) ∧
    (∀ h : Html, (extract_text_content h).length ≤ CONTENT_LIMIT →
      extract_text_content (Html.textNode (extract_text_content h)) =
        extract_text_content h) :=
  ⟨fun _ _ e => congrArg _ e, extract_length_le, extract_idem_of_le⟩

/-- Witness fixture for C3: a small page. -/
def c3Small : Html := Html.textNode ("Hello scraper world").toList

theorem c3Small_eval :
    extract_text_content c3Small = ("Hello scraper world").toList := by
  have h1 : extractLines c3Small = [("Hello scraper world").toList] := by
    unfold extractLines c3Small
    rw [getText_textNode]
    rw [show pyStrip (("Hello scraper world").toList) =
      ("Hello scraper world").toList from by decide]
    unfold filterLines
    rw [pySplitlines_single _ (by decide) (by decide)]
    decide
  rw [extract_eq, h1]
  rw [if_neg (by decide)]
  rfl

/-- Witness for C3's amended theorem at a concrete small page (under the
cap, so idempotence applies). -/
theorem C3_extractor_deterministic_capped_idem_witness :
    extract_text_content (Html.textNode (extract_text_content c3Small)) =
      extract_text_content c3Small ∧
    (extract_text_content c3Small).length ≤ CONTENT_LIMIT + 3 :=
  ⟨C3_extractor_deterministic_capped_idem.2.2 c3Small
     (by rw [c3Small_eval]; decide),
   C3_extractor_deterministic_capped_idem.2.1 c3Small⟩

/-! ## Claim C3: the counterexample -/

theorem pyStrip_replicate (n : Nat) (c : Char) (hc : isPySpace c = false) :
    pyStrip (List.replicate n c) = List.replicate n c := by
  apply pyStrip_eq_self
  · intro hd tl heq
    have hmem : hd ∈ List.replicate n c := by
      rw [heq]
      exact List.mem_cons_self _ _
    rw [List.eq_of_mem_replicate hmem]
    exact hc
  · intro x hx
    rw [← List.head?_reverse, List.reverse_replicate] at hx
    cases n with
    | zero => cases hx
    | succ m =>
        rw [List.replicate_succ] at hx
        cases hx
        exact hc

theorem nobreak_replicate (n : Nat) (c : Char) (hc : isLineBreak c = false) :
    ∀ x ∈ List.replicate n c, isLineBreak x = false := by
  intro x hx
  rw [List.eq_of_mem_replicate hx]
  exact hc

/-- Counterexample fixture: an 11999-character line. -/
def c3A : Str := List.replicate 11999 'a'

/-- Counterexample fixture: a 10-character second line. -/
def c3B : Str := List.replicate 10 'b'

/-- The three-character truncation marker. -/
def c3Dots : Str := '.' :: '.' :: '.' :: []

/-- Counterexample fixture: a page whose extracted text is 12010
characters with the line break landing exactly at the truncation cut. -/
def c3Big : Html :=
  Html.elem ("div").toList [Html.textNode c3A, Html.textNode c3B]

theorem c3A_length : c3A.length = 11999 := by
  rw [c3A, List.length_replicate]

theorem c3B_length : c3B.length = 10 := by
  rw [c3B, List.length_replicate]

theorem c3A_ne_nil : c3A ≠ [] := by
  intro h
  have := congrArg List.length h
  rw [c3A_length] at this
  cases this

theorem c3B_ne_nil : c3B ≠ [] := by
  intro h
  have := congrArg List.length h
  rw [c3B_length] at this
  cases this

theorem c3A_good : goodLine c3A :=
  ⟨pyStrip_replicate 11999 'a' (by decide),
   by rw [c3A_length]; omega,
   nobreak_replicate 11999 'a' (by decide)⟩

theorem c3B_good : goodLine c3B :=
  ⟨pyStrip_replicate 10 'b' (by decide),
   by rw [c3B_length]; omega,
   nobreak_replicate 10 'b' (by decide)⟩

theorem c3Big_lines : strippedStrings c3Big = [c3A, c3B] := by
  show (if ("div").toList ∈ killTags then []
    else strippedStringsList [Html.textNode c3A, Html.textNode c3B]) = [c3A, c3B]
  rw [if_neg (by decide)]
  show strippedStrings (Html.textNode c3A) ++
    (strippedStrings (Html.textNode c3B) ++ strippedStringsList []) = [c3A, c3B]
  show (if pyStrip c3A = [] then [] else [pyStrip c3A]) ++
    ((if pyStrip c3B = [] then [] else [pyStrip c3B]) ++ []) = [c3A, c3B]
  rw [c3A_good.1, c3B_good.1]
  rw [if_neg c3A_ne_nil, if_neg c3B_ne_nil]
  simp

theorem c3_extractLines : extractLines c3Big = [c3A, c3B] := by
  unfold extractLines
  unfold getText
  rw [c3Big_lines]
  exact filterLines_joinLines [c3A, c3B]
    (by
      intro l hl
      rcases List.mem_cons.mp hl with rfl | hl2
      · exact c3A_good
      · rcases List.mem_cons.mp hl2 with rfl | hl3
        · exact c3B_good
        · cases hl3)

theorem c3_join_pair : joinLines [c3A, c3B] = (c3A ++ ('\n' :: [])) ++ c3B := by
  show c3A ++ '\n' :: c3B = (c3A ++ ('\n' :: [])) ++ c3B
  simp

theorem c3_join_pair_length : (joinLines [c3A, c3B]).length = 12010 := by
  show (c3A ++ '\n' :: c3B).length = 12010
  rw [List.length_append, c3A_length, List.length_cons, c3B_length]

theorem c3Big_eval : extract_text_content c3Big = c3A ++ '\n' :: c3Dots := by
  rw [extract_eq, c3_extractLines]
  rw [if_pos (by rw [c3_join_pair_length]; decide)]
  rw [c3_join_pair]
  have hlen : (c3A ++ ('\n' :: [])).length = CONTENT_LIMIT := by
    rw [List.length_append, c3A_length]
    rfl
  rw [← hlen, List.take_left]
  show (c3A ++ ('\n' :: [])) ++ c3Dots = c3A ++ '\n' :: c3Dots
  simp

theorem c3Dots_strip : pyStrip c3Dots = c3Dots := by decide

theorem c3_out_join : c3A ++ '\n' :: c3Dots = joinLines [c3A, c3Dots] := rfl

theorem c3_second_pass :
    extract_text_content (Html.textNode (c3A ++ '\n' :: c3Dots)) = c3A := by
  have hmem2 : ∀ l ∈ [c3A, c3Dots], pyStrip l = l ∧ l ≠ [] := by
    intro l hl
    rcases List.mem_cons.mp hl with rfl | hl2
    · exact ⟨c3A_good.1, goodLine_ne_nil _ c3A_good⟩
    · rcases List.mem_cons.mp hl2 with rfl | hl3
      · exact ⟨c3Dots_strip, by decide⟩
      · cases hl3
  have hlines : extractLines (Html.textNode (c3A ++ '\n' :: c3Dots)) = [c3A] := by
    unfold extractLines
    rw [getText_textNode, c3_out_join, pyStrip_joinLines _ hmem2]
    unfold filterLines
    rw [pySplitlines_joinLines [c3A, c3Dots] (by simp)
      (by
        intro l hl
        rcases List.mem_cons.mp hl with rfl | hl2
        · exact ⟨goodLine_ne_nil _ c3A_good, c3A_good.2.2⟩
        · rcases List.mem_cons.mp hl2 with rfl | hl3
          · exact ⟨by decide, by decide⟩
          · cases hl3)]
    have hfA : (if 3 < (pyStrip c3A).length then some (pyStrip c3A)
        else none) = some c3A := by
      rw [c3A_good.1, if_pos c3A_good.2.1]
    have hfD : (if 3 < (pyStrip c3Dots).length then some (pyStrip c3Dots)
        else none) = none := by
      rw [c3Dots_strip, if_neg (by decide)]
    rw [List.filterMap_cons, hfA]
    dsimp only
    rw [List.filterMap_cons, hfD]
    rfl
  rw [extract_eq, hlines]
  rw [if_neg (by
    show ¬ CONTENT_LIMIT < (joinLines [c3A]).length
    show ¬ CONTENT_LIMIT < c3A.length
    rw [c3A_length]
    decide)]
  rfl

/-- Counterexample to C3 as stated: on a page whose extracted text is
12010 characters with the newline landing exactly at position 12000, the
output is 12003 characters — over the stated 12000-character cap — and a
second application of the extractor to that output drops the trailing
`...` line (length 3, filtered out), so the extractor is not idempotent
either. -/
theorem C3_counterexample_cap_exceeded :
    CONTENT_LIMIT < (extract_text_content c3Big).length ∧
    extract_text_content (Html.textNode (extract_text_content c3Big)) ≠
      extract_text_content c3Big := by
  have hout_len : (c3A ++ '\n' :: c3Dots).length = 12003 := by
    rw [List.length_append, c3A_length]
    rfl
  constructor
  · rw [c3Big_eval, hout_len]
    decide
  · rw [c3Big_eval, c3_second_pass]
    intro heq
    have := congrArg List.length heq
    rw [c3A_length, hout_len] at this
    cases this

/-! ## Claim C6 -/

/-- The registry fuzzy scan as the claim describes it: walk the registry
once, scoring each entry with the 90/80/60+tokens heuristic (skipping
the token-overlap computation once 10 entries scoring at least 80 have
been found), and collect the scored entries in registry order. -/
def specRegistryScan (query_words : List Str) (name_lower : Str) :
    Registry → Nat → List ((Str × InstInfo) × Nat)
  | [], _ => []
  | (key, info) :: rest, found =>
      let score := registryScore query_words name_lower key found
      let found' := if 80 ≤ score then found + 1 else found
      if 0 < score then
        ((key, info), score) :: specRegistryScan query_words name_lower rest found'
      else specRegistryScan query_words name_lower rest found'

/-- Candidate built from a scored registry entry (confidence `medium`,
empty url). -/
def mkRegistryCandidate (p : (Str × InstInfo) × Nat) : Candidate :=
  ⟨p.1.2.name, [], ("medium").toList, ("ugc_database").toList,
   mkDetails p.1.2, p.2⟩

/-- The claim's description of the registry fuzzy result: top 5 scored
entries by descending score (stable), each with confidence `medium` and
an empty url. -/
def specRegistryFuzzy (insts : Registry) (name_lower : Str)
    (query_words : List Str) : List Candidate :=
  ((pySorted (fun a b => Nat.ble b.2 a.2)
    (specRegistryScan query_words name_lower insts 0)).take 5).map
    mkRegistryCandidate

theorem pyInsert_map {α β : Type} (f : α → β) (le : β → β → Bool) (x : α)
    (l : List α) :
    pyInsert le (f x) (l.map f) =
      (pyInsert (fun a b => le (f a) (f b)) x l).map f := by
  induction l with
  | nil => rfl
  | cons y ys ih =>
      simp only [List.map_cons, pyInsert]
      by_cases h : le (f x) (f y) = true
      · rw [if_pos h, if_pos h]
        rfl
      · rw [if_neg h, if_neg h]
        simp only [List.map_cons, ih]

theorem pySorted_map {α β : Type} (f : α → β) (le : β → β → Bool)
    (l : List α) :
    pySorted le (l.map f) =
      (pySorted (fun a b => le (f a) (f b)) l).map f := by
  induction l with
  | nil => rfl
  | cons x xs ih =>
      simp only [List.map_cons, pySorted, ih, pyInsert_map]

theorem ugcScan_eq_specScan (query_words : List Str) (name_lower : Str)
    (l : Registry) :
    ∀ (cm : Nat) (acc : List Candidate),
    ugcScan query_words name_lower l cm acc =
      acc ++ (specRegistryScan query_words name_lower l cm).map
        mkRegistryCandidate := by
  induction l with
  | nil =>
      intro cm acc
      simp [ugcScan, specRegistryScan]
  | cons kv rest ih =>
      intro cm acc
      obtain ⟨key, info⟩ := kv
      unfold ugcScan specRegistryScan
      dsimp only
      by_cases h0 : 0 < registryScore query_words name_lower key cm
      · rw [if_pos h0, if_pos h0, ih]
        simp [mkRegistryCandidate]
      · have h80 : ¬ 80 ≤ registryScore query_words name_lower key cm := by omega
        rw [if_neg h0, if_neg h0, if_neg h80, ih]

/-- C6: when the name matches no curated-catalog entry exactly or
fuzzily and no exact registry key, `search_known_colleges` returns
exactly the claim's registry fuzzy scan: entries scored 90 (prefix) / 80
(substring) / 60+sharedTokens (at least 2 shared tokens, skipped once 10
scores of at least 80 have been seen), sorted by descending score, top
5, each with confidence `medium` and an empty url. -/
theorem C6_registry_fuzzy_scan (known : Catalog) (insts : Registry)
    (college_name : Str)
    (h1 : assocFind known (normName college_name) = none)
    (h2 : assocFind insts (normName college_name) = none)
    (h3 : knownFuzzyMatches known (queryWords (normName college_name))
      (normName college_name) = []) :
    search_known_colleges known insts college_name =
      specRegistryFuzzy insts (normName college_name)
        (queryWords (normName college_name)) := by
  unfold search_known_colleges
  dsimp only
  rw [h1, h2, h3]
  rw [if_neg (by simp)]
  rw [ugcScan_eq_specScan]
  simp only [List.nil_append]
  by_cases hscan : specRegistryScan (queryWords (normName college_name))
      (normName college_name) insts 0 = []
  · rw [hscan]
    simp [specRegistryFuzzy, hscan, pySorted]
  · have hne : List.map mkRegistryCandidate
        (specRegistryScan (queryWords (normName college_name))
          (normName college_name) insts 0) ≠ [] := by
      simpa using hscan
    rw [if_pos hne]
    unfold specRegistryFuzzy
    rw [pySorted_map mkRegistryCandidate
      (fun a b => Nat.ble b.score a.score)]
    rw [List.map_take]
    rfl

/-- Witness fixture for C6: a three-entry registry exercising all three
scoring rules. -/
def c6Insts : Registry :=
  [(("abcd college of engineering").toList,
    ⟨("ABCD College of Engineering").toList, ("ABCD University").toList,
     ("Telangana").toList, ("Hyderabad").toList, ("Private").toList⟩),
   (("national abcd college institute").toList,
    ⟨("National ABCD College Institute").toList, ("ABCD University").toList,
     ("Telangana").toList, ("Warangal").toList, ("Private").toList⟩),
   (("unrelated school").toList,
    ⟨("Unrelated School").toList, ("Other University").toList,
     ("Kerala").toList, ("Kochi").toList, ("Private").toList⟩)]

/-- Witness for C6: with an empty curated catalog and the registry
above, the query `ABCD College` takes the registry fuzzy path. -/
theorem C6_registry_fuzzy_scan_witness :
    search_known_colleges [] c6Insts (("ABCD College").toList) =
      specRegistryFuzzy c6Insts (normName (("ABCD College").toList))
        (queryWords (normName (("ABCD College").toList))) :=
  C6_registry_fuzzy_scan [] c6Insts (("ABCD College").toList)
    (by decide) (by decide) (by decide)

end AiBot
